import Mathlib

/-!
Verification of the data-cleaning pipeline in `clean_data/clean_data.py`
of the Data-Science-Blog repository.

The pandas dataframe is embedded column-major: a `Table` is a list of row
labels together with a list of named columns, each a list of cells.  A cell
(`Val`) is null (pandas NaN/None, which `isnull` conflates), a string, a
rational number (machine floats that matter here are small integers and
medians, modelled exactly), or — only in the multi-value expander, which
stores Python lists in a column — a list of tokens.

Pandas behaviours relied on by the source and reflected here:
  * `Series.value_counts()` drops nulls and sorts by count descending; its
    order among equal counts is implementation-defined, modelled as first
    occurrence (`firstMode`); `.index[0]` on an empty result raises, caught
    by the source as `IndexError`.
  * `series[0]` on a series with a non-integer index falls back to
    positional lookup, so `value_counts()[0]` is the top *count*, not the
    top value, unless the number 0 itself occurs as a value (label lookup).
  * `NaN == anything` is False (`pdEq`).
  * `fillna(NaN)` is a no-op; `np.median([])` warns and returns NaN.
  * `x[1:]` on a non-string raises `TypeError`; the `.str` accessor on a
    column without string values raises `AttributeError`; `pd.to_numeric`
    raises `ValueError` on a non-null unparseable cell.
Row labels are modelled as naturals and assumed unique where the data model
demands it (pandas `.loc` label writes coincide with positional writes then).
-/

inductive Val where
  | null : Val
  | str (s : String) : Val
  | num (q : ℚ) : Val
  | vlist (l : List String) : Val
deriving DecidableEq, Repr

def Val.isNull : Val → Bool
  | .null => true
  | _ => false

def Val.isStr : Val → Bool
  | .str _ => true
  | _ => false

def Val.isNum : Val → Bool
  | .num _ => true
  | _ => false

/-- Python exception kinds that the source raises or catches. -/
inductive Err where
  | keyError : Err
  | typeError : Err
  | valueError : Err
  | indexError : Err
  | attributeError : Err
deriving DecidableEq, Repr

/-- A pandas dataframe: row index labels plus named columns (column-major,
as pandas stores data). -/
structure Table where
  labels : List Nat
  data : List (String × List Val)
deriving DecidableEq, Repr

def colNames (t : Table) : List String := t.data.map (·.1)

/-- Well-formedness: every column has one cell per row label. -/
def Wf (t : Table) : Prop := ∀ p ∈ t.data, (p : String × List Val).2.length = t.labels.length

instance (t : Table) : Decidable (Wf t) := by
  unfold Wf; infer_instance

/-- `dataframe[c]` as a read: the first column named `c` (`None` models the
`KeyError`). -/
def getCol (t : Table) (c : String) : Option (List Val) :=
  (t.data.find? (fun p => p.1 = c)).map (·.2)

/-- `dataframe[c] = cells`: overwrite every column named `c`, or append a new
column when the name is absent (pandas assignment semantics). -/
def setColL (d : List (String × List Val)) (c : String) (cells : List Val) :
    List (String × List Val) :=
  if d.any (fun p => p.1 = c) then
    d.map (fun p => if p.1 = c then (p.1, cells) else p)
  else d ++ [(c, cells)]

def setCol (t : Table) (c : String) (cells : List Val) : Table :=
  { t with data := setColL t.data c cells }

/-- Keep the entries of `l` whose mask bit is true (row selection applied to
one column or to the label list). -/
def applyMask (mask : List Bool) (l : List α) : List α :=
  (mask.zip l).filterMap (fun p => if p.1 then some p.2 else none)

/-- `dataframe.drop(ls, axis=0)`: remove every row whose label is listed.
(The source only ever passes labels taken from the index itself.) -/
def dropRowsByLabels (t : Table) (ls : List Nat) : Table :=
  let keep := t.labels.map (fun l => !ls.contains l)
  { labels := applyMask keep t.labels
    data := t.data.map (fun p => (p.1, applyMask keep p.2)) }

/-- Labels of the rows whose cell in column `c` is null
(`dataframe[c][dataframe[c].isna()].index.tolist()`). -/
def nullLabels (t : Table) (c : String) : Except Err (List Nat) :=
  match getCol t c with
  | none => .error .keyError
  | some cells => .ok ((t.labels.zip cells).filterMap
      (fun p => if p.2.isNull then some p.1 else none))

/-- `df.drop(names, axis=1)`: raises `KeyError` unless every listed name is
present; otherwise removes every column with a listed name. -/
def dropColsL (d : List (String × List Val)) (names : List String) :
    Except Err (List (String × List Val)) :=
  if names.all (fun n => d.any (fun p => p.1 = n)) then
    .ok (d.filter (fun p => !names.contains p.1))
  else .error .keyError

def dropColsStrict (t : Table) (names : List String) : Except Err Table :=
  (dropColsL t.data names).map (fun d => { t with data := d })

/-- `try: df.drop(c, axis=1, inplace=True) except KeyError: pass`. -/
def dropColTolerant (t : Table) (c : String) : Table :=
  match dropColsStrict t [c] with
  | .ok u => u
  | .error _ => t

/-! ### drop_missing (Threshold Pruner) -/

/-- Null count of row `i` (summing `isnull` across the columns). -/
def countNullsRow (t : Table) (i : Nat) : Nat :=
  t.data.countP (fun p => (p.2.getD i Val.null).isNull)

/-- Null fraction of a list of cells relative to an opposite-axis size. -/
def nullFrac (cells : List Val) (n : Nat) : ℚ :=
  (cells.countP (·.isNull) : ℚ) / (n : ℚ)

/-- `drop_missing(dataframe, row, threshold)` from the source: compute the
per-row (or per-column) null fraction over the opposite axis's size and drop
the rows (columns) whose fraction strictly exceeds the threshold. -/
def dropMissing (t : Table) (row : Bool) (threshold : ℚ) : Table :=
  if row then
    let n := t.data.length
    let toDrop : List Nat := (List.range t.labels.length).filterMap
      (fun i => if threshold < (countNullsRow t i : ℚ) / (n : ℚ) then t.labels.get? i else none)
    dropRowsByLabels t toDrop
  else
    let n := t.labels.length
    let toDrop : List String := t.data.filterMap
      (fun p => if threshold < nullFrac p.2 n then some p.1 else none)
    { t with data := t.data.filter (fun p => !toDrop.contains p.1) }

/-- The keep-mask the claim describes for the row axis: row `i` is kept iff
its null fraction is at most the threshold. -/
def rowKeepMask (t : Table) (threshold : ℚ) : List Bool :=
  (List.range t.labels.length).map
    (fun i => decide ((countNullsRow t i : ℚ) / (t.data.length : ℚ) ≤ threshold))

/-- The source calls `drop` without `inplace`, so the caller's dataframe is
left untouched and a fresh frame is returned: the pair is
(caller-visible state of the argument after the call, returned frame). -/
def dropMissingRun (t : Table) (row : Bool) (threshold : ℚ) : Table × Table :=
  (t, dropMissing t row threshold)

/-! ### value_counts and the mode -/

/-- The non-null cells of a column (`value_counts` drops nulls; `dropna`). -/
def nonNulls (cells : List Val) : List Val := cells.filter (fun v => !v.isNull)

/-- The largest multiplicity occurring in `l` (the top count of
`value_counts`). -/
def maxCount (l : List Val) : Nat := (l.map (fun v => l.count v)).foldr max 0

/-- `value_counts().index[0]`: a value of maximal multiplicity.  Pandas's
order among tied counts is implementation-defined but fixed for a given
input; it is modelled as first occurrence. `none` models the `IndexError`
on an empty result. -/
def firstMode (l : List Val) : Option Val :=
  l.find? (fun v => l.count v == maxCount l)

/-- `series.fillna(v)`: replace null cells by `v` (a null `v` is a no-op,
exactly as `fillna(NaN)` is). -/
def fillna (cells : List Val) (v : Val) : List Val :=
  cells.map (fun x => if x.isNull then v else x)

/-- `dataframe[column].value_counts()[0]` from `get_mode`: with a
non-integer index the integer key falls back to positional lookup and
yields the top *count*; if the value `0` itself occurs, label lookup wins
and yields the count of `0`; on an all-null column the lookup raises. -/
def valueCountsAtZero (cells : List Val) : Except Err Val :=
  let nn := nonNulls cells
  if 0 < nn.count (Val.num 0) then .ok (Val.num (nn.count (Val.num 0) : ℚ))
  else if nn.isEmpty then .error .indexError
  else .ok (Val.num (maxCount nn : ℚ))

/-- `get_mode(dataframe, column)`: returns the column with nulls filled by
`value_counts()[0]` (which, per the positional fallback, is the mode's
*count*, not the mode). -/
def getMode (t : Table) (c : String) : Except Err (List Val) :=
  match getCol t c with
  | none => .error .keyError
  | some cells => (valueCountsAtZero cells).map (fillna cells)

/-- `dataframe[column] = get_mode(dataframe, column)` in `handle_categorical`. -/
def applyGetMode (t : Table) (c : String) : Except Err Table :=
  (getMode t c).map (setCol t c)

/-! ### get_mode_by_zip (Zip-Scoped Mode Imputer) -/

/-- Pandas elementwise `==`: false whenever either side is null. -/
def pdEq (a b : Val) : Bool := !a.isNull && !b.isNull && a == b

/-- `dataframe[column][dataframe["zipcode"] == z]` restricted to its
non-null values, over a list of (zipcode, target) pairs. -/
def nnVals (l : List (Val × Val)) (z : Val) : List Val :=
  ((l.filter (fun p => pdEq p.1 z)).map (·.2)).filter (fun v => !v.isNull)

/-- `search_similar_zip`: the most frequent non-null target value among the
rows whose zipcode equals `z`; the `IndexError` on no candidates is caught
and surfaces as `None`, i.e. null. -/
def searchSimilarZip (l : List (Val × Val)) (z : Val) : Val :=
  match firstMode (nnVals l z) with
  | some v => v
  | none => .null

/-- One iteration of the `get_mode_by_zip` loop: impute row `i` from the
current state of the table. -/
def imputeStep (l : List (Val × Val)) (i : Nat) : List (Val × Val) :=
  match l.get? i with
  | some p => l.set i (p.1, searchSimilarZip l p.1)
  | none => l

/-- The rows with a null target, computed once before the loop
(`dataframe[dataframe[column].isna()]`). -/
def nullIdxs (l : List (Val × Val)) : List Nat :=
  (List.range l.length).filter (fun i =>
    match l.get? i with
    | some p => p.2.isNull
    | none => false)

/-- The `get_mode_by_zip` loop over a (zipcode, target) column pair:
sequentially assign each originally-null row the current zip-scoped mode. -/
def imputeByZip (l : List (Val × Val)) : List (Val × Val) :=
  (nullIdxs l).foldl imputeStep l

/-- `get_mode_by_zip(dataframe, column)`: reads the zipcode and target
columns, runs the loop, writes the target column back.  (Every call site
has a target column other than "zipcode", so the zipcode column is fixed
throughout the loop, as in the source.) -/
def getModeByZip (t : Table) (c : String) : Except Err Table :=
  match getCol t "zipcode", getCol t c with
  | some zs, some ts => .ok (setCol t c ((imputeByZip (zs.zip ts)).map (·.2)))
  | _, _ => .error .keyError

/-- The claim's peer multiset for row `i`: non-null target values of the
*other* rows whose zipcode equals `z`. -/
def origPeerVals (l : List (Val × Val)) (i : Nat) (z : Val) : List Val :=
  nnVals (l.eraseIdx i) z

/-! ### Numeric normalization -/

/-- Fallible elementwise map, stopping at the first raised exception. -/
def exMap (f : α → Except Err β) : List α → Except Err (List β)
  | [] => .ok []
  | v :: vs =>
    match f v with
    | .error e => .error e
    | .ok w =>
      match exMap f vs with
      | .error e => .error e
      | .ok ws => .ok (w :: ws)

/-- `lambda x: x[1:].replace(",", "")` on one cell: slicing a non-string
(a NaN or a number) raises `TypeError`. -/
def moneyCell (v : Val) : Except Err Val :=
  match v with
  | Val.str s => .ok (Val.str ((s.drop 1).replace "," ""))
  | _ => .error Err.typeError

/-- `money_to_numeric`: `series.apply(lambda x: x[1:].replace(",", ""))`. -/
def moneyToNumeric (cells : List Val) : Except Err (List Val) :=
  exMap moneyCell cells

/-- `percentage_to_numeric`: `series.str.replace("%", "")`.  The `.str`
accessor requires an object-dtype column (one holding some string), else
`AttributeError`; non-string elements map to NaN. -/
def percentageToNumeric (cells : List Val) : Except Err (List Val) :=
  if cells.any Val.isStr then
    .ok (cells.map (fun v =>
      match v with
      | Val.str s => Val.str (s.replace "%" "")
      | _ => Val.null))
  else .error .attributeError

def digitVal (c : Char) : Option Nat :=
  if c.isDigit then some (c.toNat - 48) else none

def digitsToNat : List Char → Option Nat
  | [] => none
  | cs => cs.foldl (fun acc c => acc.bind (fun n => (digitVal c).map (fun d => n * 10 + d)))
      (some 0)

/-- Decimal numeral parser standing in for Python float conversion:
optional sign, then digits with an optional single decimal point (at least
one digit overall). -/
def parseNum (s : String) : Option ℚ :=
  let cs := s.toList
  let signed : Bool × List Char :=
    match cs with
    | '-' :: r => (true, r)
    | '+' :: r => (false, r)
    | _ => (false, cs)
  let body := signed.2
  let intPart := body.takeWhile (fun c => c ≠ '.')
  let rest := body.dropWhile (fun c => c ≠ '.')
  let q? : Option ℚ :=
    match rest with
    | [] => (digitsToNat intPart).map (fun n => (n : ℚ))
    | _ :: frac =>
      if frac.contains '.' then none
      else
        match intPart, frac with
        | [], [] => none
        | [], f =>
          (digitsToNat f).map (fun fn => (fn : ℚ) / ((10 : ℚ) ^ f.length))
        | ip, [] => (digitsToNat ip).map (fun n => (n : ℚ))
        | ip, f =>
          (digitsToNat ip).bind (fun n =>
            (digitsToNat f).map (fun fn => (n : ℚ) + (fn : ℚ) / ((10 : ℚ) ^ f.length)))
  q?.map (fun q => if signed.1 then -q else q)

/-- `pd.to_numeric` on one cell: a null passes through, a number passes
through, a string is parsed and an unparseable one raises `ValueError`. -/
def toNumericCell (v : Val) : Except Err Val :=
  match v with
  | Val.null => .ok Val.null
  | Val.num q => .ok (Val.num q)
  | Val.str s =>
    match parseNum s with
    | some q => .ok (Val.num q)
    | none => .error Err.valueError
  | Val.vlist _ => .error Err.typeError

/-- `pd.to_numeric(series)` elementwise over the column. -/
def toNumeric (cells : List Val) : Except Err (List Val) :=
  exMap toNumericCell cells

/-! ### handle_numeric (Numeric Imputer) -/

/-- A pandas-numeric column: no string (object) cell.  A column holding only
nulls has dtype float64 and counts as numeric. -/
def isNumericCol (cells : List Val) : Bool := cells.all (fun v => !v.isStr)

/-- `columns_missing_list(dataframe, "number")`: names of numeric columns
with at least one null. -/
def columnsMissingNumeric (t : Table) : List String :=
  t.data.filterMap (fun p =>
    if isNumericCol p.2 && p.2.any Val.isNull then some p.1 else none)

def insertRat (q : ℚ) : List ℚ → List ℚ
  | [] => [q]
  | x :: xs => if q ≤ x then q :: x :: xs else x :: insertRat q xs

def sortRats (l : List ℚ) : List ℚ := l.foldr insertRat []

/-- `np.median`: sort, take the middle (or the mean of the two middles);
on an empty list it warns and returns NaN (`none`). -/
def npMedian (l : List ℚ) : Option ℚ :=
  let s := sortRats l
  let n := l.length
  if n = 0 then none
  else if n % 2 = 1 then some (s.getD (n / 2) 0)
  else some ((s.getD (n / 2 - 1) 0 + s.getD (n / 2) 0) / 2)

/-- `func(dataframe[column].dropna())` as the fill value: the median of the
non-null cells, NaN (null) when there are none. -/
def medianFill (cells : List Val) : Val :=
  match npMedian (cells.filterMap (fun v =>
    match v with
    | Val.num q => some q
    | _ => none)) with
  | some m => Val.num m
  | none => Val.null

/-- `handle_numeric(dataframe, method="median")`: the list of numeric
columns with nulls is computed once, then each is filled in place with the
median of its current non-null values.  Nothing in this path can raise. -/
def handleNumeric (t : Table) : Table :=
  (columnsMissingNumeric t).foldl (fun u c =>
    match getCol u c with
    | some cells => setCol u c (fillna cells (medianFill cells))
    | none => u) t

/-! ### handle_repetitive_data (Redundancy Remover) -/

/-- The row at position `i` as a tuple of cells (for duplicate detection;
`drop_duplicates` compares values only, treating NaNs as equal). -/
def rowAt (t : Table) (i : Nat) : List Val :=
  t.data.map (fun p => p.2.getD i Val.null)

/-- `drop_duplicates`: keep the first occurrence of each full row. -/
def dropDuplicates (t : Table) : Table :=
  let n := t.labels.length
  let keep := (List.range n).map (fun i =>
    decide (∀ j ∈ List.range i, rowAt t j ≠ rowAt t i))
  { labels := applyMask keep t.labels
    data := t.data.map (fun p => (p.1, applyMask keep p.2)) }

def repetitiveCols : List String :=
  ["experiences_offered", "host_listings_count",
   "neighbourhood_group_cleansed", "jurisdiction_names"]

/-- `handle_repetitive_data`: tolerantly drop the four known-redundant
columns, then drop duplicate rows. -/
def handleRepetitiveData (t : Table) : Table :=
  dropDuplicates (repetitiveCols.foldl dropColTolerant t)

/-! ### handle_categorical -/

/-- `dataframe["summary"][dataframe["summary"].isna()] = "missing"` —
chained assignment writing through to the frame. -/
def fillSummary (t : Table) : Except Err Table :=
  match getCol t "summary" with
  | none => .error .keyError
  | some cells =>
    .ok (setCol t "summary" (cells.map (fun v => if v.isNull then Val.str "missing" else v)))

def dropNullRows (t : Table) (c : String) : Except Err Table :=
  (nullLabels t c).map (dropRowsByLabels t)

/-- `handle_categorical(dataframe)`: drop rows with a null zipcode, drop the
two redundant location columns, fill summary nulls with "missing", run
`get_mode` on property_type and host_response_time, run `get_mode_by_zip`
on market, host_neighbourhood and city in that order, then drop the rows
still null in host_neighbourhood and then those still null in city. -/
def handleCategorical (t : Table) : Except Err Table := do
  let t ← dropNullRows t "zipcode"
  let t ← dropColsStrict t ["host_location", "neighbourhood"]
  let t ← fillSummary t
  let t ← applyGetMode t "property_type"
  let t ← applyGetMode t "host_response_time"
  let t ← getModeByZip t "market"
  let t ← getModeByZip t "host_neighbourhood"
  let t ← getModeByZip t "city"
  let t ← dropNullRows t "host_neighbourhood"
  let t ← dropNullRows t "city"
  return t

/-! ### clean_data (Pipeline Orchestrator) -/

/-- One normalization statement:
`try: dataframe[c] = pd.to_numeric(money_to_numeric(dataframe[c]))
except KeyError: pass`.  The column is assigned only if the whole
right-hand side evaluated; only `KeyError` (an absent column) is caught. -/
def normalizeMoneyCol (t : Table) (c : String) : Except Err Table :=
  match getCol t c with
  | none => .ok t
  | some cells =>
    match moneyToNumeric cells with
    | .error e => .error e
    | .ok s1 =>
      match toNumeric s1 with
      | .error e => .error e
      | .ok s2 => .ok (setCol t c s2)

def normalizePercCol (t : Table) (c : String) : Except Err Table :=
  match getCol t c with
  | none => .ok t
  | some cells =>
    match percentageToNumeric cells with
    | .error e => .error e
    | .ok s1 =>
      match toNumeric s1 with
      | .error e => .error e
      | .ok s2 => .ok (setCol t c s2)

/-- Run one in-place step: on an exception the caller's frame keeps the
state reached so far. -/
def normStep (st : Table × Option Err) (f : Table → Except Err Table) :
    Table × Option Err :=
  match st with
  | (t, some e) => (t, some e)
  | (t, none) =>
    match f t with
    | .ok u => (u, none)
    | .error e => (t, some e)

/-- The four normalization statements of `clean_data`, in source order,
threading the in-place state of the caller's frame. -/
def normalizeAll (t : Table) : Table × Option Err :=
  [fun u => normalizeMoneyCol u "price",
   fun u => normalizeMoneyCol u "extra_people",
   fun u => normalizePercCol u "host_response_rate",
   fun u => normalizePercCol u "host_acceptance_rate"].foldl normStep (t, none)

/-- `clean_data(dataframe)` with the caller-visible state made explicit.
Normalization, `handle_repetitive_data` (inplace drops) and
`handle_numeric` all mutate the caller's frame; `handle_categorical` starts
with a copying `drop`, so failures inside it leave the caller's frame at
the numeric-imputed state.  Returns (caller's frame after the call, the
returned value or the propagated first exception). -/
def cleanDataRun (t : Table) : Table × Except Err Table :=
  match normalizeAll t with
  | (t1, some e) => (t1, .error e)
  | (t1, none) =>
    let t3 := handleNumeric (handleRepetitiveData t1)
    match handleCategorical t3 with
    | .error e => (t3, .error e)
    | .ok t4 => (t3, .ok t4)

/-- The value `clean_data` returns (or the exception it propagates). -/
def cleanData (t : Table) : Except Err Table := (cleanDataRun t).2

def exceptOk : Except Err Table → Bool
  | .ok _ => true
  | .error _ => false

/-! ### get_df_from_column (Multi-Value Expander) -/

/-- Python `str.split(",")` on the character list (`""` gives `[""]`,
separators delimit possibly-empty fields). -/
def splitCommaChars : List Char → List (List Char)
  | [] => [[]]
  | c :: cs =>
    let r := splitCommaChars cs
    if c = ',' then [] :: r
    else
      match r with
      | g :: rest => (c :: g) :: rest
      | [] => [[c]]

def splitComma (s : String) : List String :=
  (splitCommaChars s.toList).map (fun g => String.mk g)

/-- `split_by_pattern(string, pattern)`: remove the pattern, split on ",".
`re.sub` with a fixed pattern is some function on strings; it is carried
as an abstract `strip` parameter. -/
def splitByPattern (strip : String → String) (s : String) : List String :=
  splitComma (strip s)

/-- `dataframe[column].apply(lambda x: split_by_pattern(x, pattern))`:
applying to a non-string cell (a NaN) raises `TypeError` inside `re.sub`. -/
def tokenLists (strip : String → String) (cells : List Val) :
    Except Err (List (List String)) :=
  exMap (fun v =>
    match v with
    | Val.str s => .ok (splitByPattern strip s)
    | _ => .error Err.typeError) cells

/-- Code-point lexicographic order on strings (how Python compares
strings), written so that it evaluates by kernel reduction. -/
def charListLe : List Char → List Char → Bool
  | [], _ => true
  | _ :: _, [] => false
  | a :: as, b :: bs =>
    if a.toNat < b.toNat then true
    else if b.toNat < a.toNat then false
    else charListLe as bs

def strLe (a b : String) : Bool := charListLe a.toList b.toList

def insertStr (s : String) : List String → List String
  | [] => [s]
  | x :: xs => if strLe s x then s :: x :: xs else x :: insertStr s xs

/-- `sorted(...)` on strings (insertion sort; ascending). -/
def sortStrings (l : List String) : List String := l.foldr insertStr []

/-- The frame built by `get_df_from_column` before the amenities denylist
step: the list column itself, one 0/1 indicator column per distinct token
in sorted order, and a token-count column (each assigned via
`df_column[name] = ...`). -/
def expandFrame (lists : List (List String)) (column : String) :
    List (String × List Val) :=
  let valuesSet := sortStrings lists.flatten.dedup
  let base : List (String × List Val) := [(column, lists.map Val.vlist)]
  let withInd := valuesSet.foldl (fun fr v =>
    setColL fr v (lists.map (fun l => Val.num (if l.contains v then 1 else 0)))) base
  setColL withInd ("number_of_" ++ column) (lists.map (fun l => Val.num (l.length : ℚ)))

def amenityDenyList : List String :=
  ["", "translation missing: en.hosting_amenity_49",
   "translation missing: en.hosting_amenity_50"]

/-- The amenities special case:
`try: df.drop(denylist, axis=1) except KeyError: df.drop(denylist[0], axis=1)`.
The strict drop of all three raises as soon as one is absent; the fallback
then drops only the empty-token column (and itself raises if that one is
absent too). -/
def amenitiesDrop (frame : List (String × List Val)) :
    Except Err (List (String × List Val)) :=
  match dropColsL frame amenityDenyList with
  | .ok fr => .ok fr
  | .error _ => dropColsL frame [amenityDenyList.getD 0 ""]

/-- `get_df_from_column(dataframe, column, pattern)`. -/
def getDfFromColumn (t : Table) (column : String) (strip : String → String) :
    Except Err Table :=
  match getCol t column with
  | none => .error .keyError
  | some cells =>
    match tokenLists strip cells with
    | .error e => .error e
    | .ok lists =>
      let frame := expandFrame lists column
      if column = "amenities" then
        (amenitiesDrop frame).map (fun fr => { labels := t.labels, data := fr })
      else .ok { labels := t.labels, data := frame }

/-! ## Basic lemmas about the table operations -/

theorem Val.isNull_iff (v : Val) : v.isNull = true ↔ v = Val.null := by
  cases v <;> simp [Val.isNull]

theorem fillna_null (cells : List Val) : fillna cells Val.null = cells := by
  induction cells with
  | nil => rfl
  | cons x xs ih =>
    simp only [fillna, List.map_cons] at *
    rw [ih]
    cases x <;> simp [Val.isNull]


theorem findSnd_any {c : String} :
    ∀ d : List (String × List Val), ((d.find? (fun p => p.1 = c)).map (·.2)).isSome →
      d.any (fun p => p.1 = c) = true := by
  intro d
  induction d with
  | nil => simp
  | cons p rest ih =>
    by_cases hpc : p.1 = c
    · simp [hpc]
    · rw [List.find?_cons_of_neg _ (by simpa using hpc)]
      intro h
      simpa [hpc] using ih h

theorem findSnd_replace_self {c : String} (cells : List Val) :
    ∀ d : List (String × List Val), d.any (fun p => p.1 = c) = true →
      ((d.map (fun p => if p.1 = c then (p.1, cells) else p)).find?
        (fun p => p.1 = c)).map (·.2) = some cells := by
  intro d
  induction d with
  | nil => simp
  | cons p rest ih =>
    by_cases hpc : p.1 = c
    · intro _
      rw [List.map_cons, if_pos hpc, List.find?_cons_of_pos _ (by simpa using hpc)]
      rfl
    · intro h
      rw [List.map_cons, if_neg hpc, List.find?_cons_of_neg _ (by simpa using hpc)]
      exact ih (by simpa [hpc] using h)

theorem findSnd_replace_ne {c c' : String} (hne : c ≠ c') (cells : List Val) :
    ∀ d : List (String × List Val),
      ((d.map (fun p => if p.1 = c' then (p.1, cells) else p)).find?
        (fun p => p.1 = c)).map (·.2) = (d.find? (fun p => p.1 = c)).map (·.2) := by
  intro d
  induction d with
  | nil => simp
  | cons p rest ih =>
    by_cases hpc' : p.1 = c'
    · have hpc : ¬ p.1 = c := by rw [hpc']; exact fun hh => hne hh.symm
      rw [List.map_cons, if_pos hpc', List.find?_cons_of_neg _ (by simpa using hpc),
        List.find?_cons_of_neg _ (by simpa using hpc)]
      exact ih
    · by_cases hpc : p.1 = c
      · rw [List.map_cons, if_neg hpc', List.find?_cons_of_pos _ (by simpa using hpc),
          List.find?_cons_of_pos _ (by simpa using hpc)]
      · rw [List.map_cons, if_neg hpc', List.find?_cons_of_neg _ (by simpa using hpc),
          List.find?_cons_of_neg _ (by simpa using hpc)]
        exact ih

theorem findSnd_append_ne {c c' : String} (hne : c ≠ c') (cells : List Val) :
    ∀ d : List (String × List Val),
      ((d ++ [(c', cells)]).find? (fun p => p.1 = c)).map (·.2) =
        (d.find? (fun p => p.1 = c)).map (·.2) := by
  intro d
  induction d with
  | nil =>
    simp only [List.nil_append]
    rw [List.find?_cons_of_neg _ (by simpa using fun hh => hne hh.symm)]
  | cons p rest ih =>
    by_cases hpc : p.1 = c
    · rw [List.cons_append, List.find?_cons_of_pos _ (by simpa using hpc),
        List.find?_cons_of_pos _ (by simpa using hpc)]
    · rw [List.cons_append, List.find?_cons_of_neg _ (by simpa using hpc),
        List.find?_cons_of_neg _ (by simpa using hpc)]
      exact ih

theorem getCol_setCol_self {t : Table} {c : String} {cells0 : List Val}
    (h : getCol t c = some cells0) (cells : List Val) :
    getCol (setCol t c cells) c = some cells := by
  have hany : t.data.any (fun p => p.1 = c) = true :=
    findSnd_any t.data (by rw [show ((t.data.find? (fun p => p.1 = c)).map (·.2)) = getCol t c from rfl, h]; rfl)
  show ((setColL t.data c cells).find? (fun p => p.1 = c)).map (·.2) = some cells
  rw [setColL, if_pos hany]
  exact findSnd_replace_self cells t.data hany

theorem getCol_setCol_ne {t : Table} {c c' : String} (h : c ≠ c') (cells : List Val) :
    getCol (setCol t c' cells) c = getCol t c := by
  show ((setColL t.data c' cells).find? (fun p => p.1 = c)).map (·.2) =
    (t.data.find? (fun p => p.1 = c)).map (·.2)
  rw [setColL]
  by_cases hany : t.data.any (fun p => p.1 = c') = true
  · rw [if_pos hany]
    exact findSnd_replace_ne h cells t.data
  · rw [if_neg hany]
    exact findSnd_append_ne h cells t.data

theorem colNames_setCol_of_any {t : Table} {c : String}
    (h : t.data.any (fun p => p.1 = c) = true) (cells : List Val) :
    colNames (setCol t c cells) = colNames t := by
  simp only [colNames, setCol, setColL, h, if_true, List.map_map]
  apply List.map_congr_left
  intro p _
  by_cases hpc : p.1 = c <;> simp [hpc]

theorem colNames_setCol_not_mem {t : Table} {c : String} (cells : List Val) {n : String}
    (hn : n ∉ colNames t) (hnc : n ≠ c) : n ∉ colNames (setCol t c cells) := by
  simp only [colNames, setCol, setColL]
  by_cases hex : t.data.any (fun p => p.1 = c) = true
  · simp only [hex, if_true, List.map_map, List.mem_map]
    rintro ⟨p, hp, hfst⟩
    apply hn
    by_cases hpc : p.1 = c
    · simp only [Function.comp, hpc, if_true] at hfst
      exact absurd hfst.symm hnc
    · simp only [Function.comp, hpc, if_false] at hfst
      exact List.mem_map.2 ⟨p, hp, hfst⟩
  · rw [if_neg hex]
    simp only [List.map_append, List.mem_append, List.map_cons]
    rintro (hl | hr)
    · exact hn hl
    · simp only [List.map_nil, List.mem_singleton] at hr
      exact hnc hr

theorem getCol_mem_any {t : Table} {c : String} {cells : List Val}
    (h : getCol t c = some cells) : t.data.any (fun p => p.1 = c) = true :=
  findSnd_any t.data (by
    rw [show ((t.data.find? (fun p => p.1 = c)).map (·.2)) = getCol t c from rfl, h]; rfl)

/-! ## C10 — drop_missing leaves its argument unchanged -/

/-- C10: `drop_missing` only calls `isnull`, `sum` and `drop` without
`inplace`, so the caller's dataframe is unchanged by the call and the
pruned frame is a separate return value: the caller-visible state after
`dropMissingRun` is exactly the input table. -/
theorem c10_drop_missing_preserves_input (t : Table) (row : Bool) (threshold : ℚ) :
    (dropMissingRun t row threshold).1 = t ∧
      (dropMissingRun t row threshold).2 = dropMissing t row threshold :=
  ⟨rfl, rfl⟩

/-! ## C3 — get_mode fills nulls with the mode's *count*, not the mode -/

/-- C3 (code bug): on the column `["A", "A", "B", null]` the source's
`get_mode` evaluates `value_counts()[0]`, which positionally selects the
top *count* (2), so the null is filled with the number 2 instead of the
modal value "A" promised by the docstring and the spec. -/
theorem c3_get_mode_fills_with_count :
    getMode ⟨[0, 1, 2, 3], [("c", [Val.str "A", Val.str "A", Val.str "B", Val.null])]⟩ "c"
      = Except.ok [Val.str "A", Val.str "A", Val.str "B", Val.num 2] ∧
    Val.num 2 ≠ Val.str "A" := by
  exact ⟨rfl, by decide⟩

/-! ## C4 — drop_missing keeps exactly the entries at or below the threshold -/

theorem nodup_fst_inj {d : List (String × List Val)}
    (hnd : (d.map (·.1)).Nodup) {p q : String × List Val}
    (hp : p ∈ d) (hq : q ∈ d) (h : p.1 = q.1) : p = q :=
  List.inj_on_of_nodup_map hnd hp hq h

theorem dropMissing_col_eq (t : Table) (threshold : ℚ)
    (hnd : (colNames t).Nodup) :
    dropMissing t false threshold =
      { labels := t.labels
        data := t.data.filter (fun p => nullFrac p.2 t.labels.length ≤ threshold) } := by
  simp only [dropMissing, if_neg (Bool.false_ne_true)]
  congr 1
  apply List.filter_congr
  intro p hp
  have hmem : (t.data.filterMap (fun q =>
      if threshold < nullFrac q.2 t.labels.length then some q.1 else none)).contains p.1
      = decide (threshold < nullFrac p.2 t.labels.length) := by
    by_cases hlt : threshold < nullFrac p.2 t.labels.length
    · rw [decide_eq_true hlt]
      exact List.elem_eq_true_of_mem
        (List.mem_filterMap.2 ⟨p, hp, by rw [if_pos hlt]⟩)
    · rw [decide_eq_false hlt, Bool.eq_false_iff]
      intro hcon
      have hm := List.mem_of_elem_eq_true hcon
      obtain ⟨q, hq, hqa⟩ := List.mem_filterMap.1 hm
      by_cases hq' : threshold < nullFrac q.2 t.labels.length
      · rw [if_pos hq'] at hqa
        have haq : p.1 = q.1 := by injection hqa with hh; exact hh.symm
        have hpq := nodup_fst_inj hnd hp hq haq
        rw [hpq] at hlt
        exact hlt hq'
      · rw [if_neg hq'] at hqa
        exact Option.noConfusion hqa
  rw [hmem]
  by_cases hle : nullFrac p.2 t.labels.length ≤ threshold
  · simp [decide_eq_true hle, decide_eq_false (not_lt.2 hle)]
  · simp [decide_eq_false hle, decide_eq_true (lt_of_not_le hle)]

theorem dropMissing_row_mask (t : Table) (threshold : ℚ) (hnd : t.labels.Nodup) :
    t.labels.map (fun l =>
      !((List.range t.labels.length).filterMap (fun i =>
        if threshold < (countNullsRow t i : ℚ) / (t.data.length : ℚ)
        then t.labels.get? i else none)).contains l)
      = rowKeepMask t threshold := by
  apply List.ext_get?
  intro i
  rw [List.get?_map, rowKeepMask, List.get?_map]
  by_cases hi : i < t.labels.length
  · obtain ⟨l, hl⟩ : ∃ l, t.labels.get? i = some l := by
      cases hl : t.labels.get? i with
      | none => exact absurd (List.get?_eq_none.1 hl) (not_le.2 hi)
      | some l => exact ⟨l, rfl⟩
    rw [hl, List.get?_range hi]
    simp only [Option.map_some']
    congr 1
    by_cases hlt : threshold < (countNullsRow t i : ℚ) / (t.data.length : ℚ)
    · have hc : ((List.range t.labels.length).filterMap (fun j =>
          if threshold < (countNullsRow t j : ℚ) / (t.data.length : ℚ)
          then t.labels.get? j else none)).contains l = true :=
        List.elem_eq_true_of_mem
          (List.mem_filterMap.2 ⟨i, List.mem_range.2 hi, by rw [if_pos hlt, hl]⟩)
      rw [hc, decide_eq_false (not_le.2 hlt)]
      rfl
    · have hnm : ((List.range t.labels.length).filterMap (fun j =>
          if threshold < (countNullsRow t j : ℚ) / (t.data.length : ℚ)
          then t.labels.get? j else none)).contains l = false := by
        rw [Bool.eq_false_iff]
        intro hcon
        have hm := List.mem_of_elem_eq_true hcon
        obtain ⟨j, hj, hjl⟩ := List.mem_filterMap.1 hm
        by_cases hj' : threshold < (countNullsRow t j : ℚ) / (t.data.length : ℚ)
        · rw [if_pos hj'] at hjl
          have hij : i = j := List.get?_inj hi hnd (by rw [hl, hjl])
          rw [← hij] at hj'
          exact hlt hj'
        · rw [if_neg hj'] at hjl
          exact Option.noConfusion hjl
      rw [hnm, decide_eq_true (not_lt.1 hlt)]
      rfl
  · have h1 : t.labels.get? i = none := List.get?_eq_none.2 (le_of_not_lt hi)
    have h2 : (List.range t.labels.length).get? i = none := by
      rw [List.get?_eq_none, List.length_range]
      exact le_of_not_lt hi
    rw [h1, h2]
    rfl

theorem dropMissing_row_eq (t : Table) (threshold : ℚ) (hnd : t.labels.Nodup) :
    dropMissing t true threshold =
      { labels := applyMask (rowKeepMask t threshold) t.labels
        data := t.data.map (fun p => (p.1, applyMask (rowKeepMask t threshold) p.2)) } := by
  have h := dropMissing_row_mask t threshold hnd
  simp only [dropMissing, dropRowsByLabels, if_true]
  rw [h]

/-- C4: for a table with unique column names / row labels and a positive
opposite-axis size, `drop_missing` keeps exactly the columns (rows) whose
null fraction over the opposite axis is at most the threshold — nothing
with a strictly larger fraction survives, nothing at or below the threshold
is removed, and the kept entries are unchanged (expressed by equality with
the filtered, respectively mask-selected, table). -/
theorem c4_drop_missing_threshold (t : Table) (threshold : ℚ) :
    ((colNames t).Nodup → 0 < t.labels.length →
      (dropMissing t false threshold).labels = t.labels ∧
      (dropMissing t false threshold).data =
        t.data.filter (fun p => nullFrac p.2 t.labels.length ≤ threshold)) ∧
    (t.labels.Nodup → 0 < t.data.length →
      dropMissing t true threshold =
        { labels := applyMask (rowKeepMask t threshold) t.labels
          data := t.data.map (fun p => (p.1, applyMask (rowKeepMask t threshold) p.2)) }) := by
  constructor
  · intro hnd _
    rw [dropMissing_col_eq t threshold hnd]
    exact ⟨rfl, rfl⟩
  · intro hnd _
    exact dropMissing_row_eq t threshold hnd

def tableC4 : Table :=
  ⟨[0, 1], [("a", [Val.null, Val.str "x"]), ("b", [Val.str "y", Val.str "z"])]⟩

theorem c4_witness :
    ((dropMissing tableC4 false (4/10 : ℚ)).labels = tableC4.labels ∧
      (dropMissing tableC4 false (4/10 : ℚ)).data =
        tableC4.data.filter (fun p => nullFrac p.2 tableC4.labels.length ≤ (4/10 : ℚ))) ∧
    dropMissing tableC4 true (4/10 : ℚ) =
      { labels := applyMask (rowKeepMask tableC4 (4/10 : ℚ)) tableC4.labels
        data := tableC4.data.map
          (fun p => (p.1, applyMask (rowKeepMask tableC4 (4/10 : ℚ)) p.2)) } :=
  ⟨(c4_drop_missing_threshold tableC4 (4/10 : ℚ)).1 (by decide) (by decide),
   (c4_drop_missing_threshold tableC4 (4/10 : ℚ)).2 (by decide) (by decide)⟩

/-! ## C5 — handle_numeric on an all-null numeric column -/

theorem medianFill_of_all_null {cells : List Val}
    (h : ∀ v ∈ cells, v.isNull = true) : medianFill cells = Val.null := by
  have hempty : (cells.filterMap (fun v =>
      match v with
      | Val.num q => some q
      | _ => none)) = [] := by
    rw [List.filterMap_eq_nil]
    intro v hv
    have := h v hv
    rw [Val.isNull_iff] at this
    rw [this]
  rw [medianFill, hempty]
  rfl

/-- C5 (refuting the claimed DomainError): the fill value computed for a
column is `np.median` of its non-null cells; on an all-null column that is
`np.median([])`, which returns NaN (no exception), and `fillna(NaN)` leaves
the column unchanged — `handle_numeric` completes and the all-null column
survives untouched, still entirely null. -/
theorem c5_all_null_numeric_column_retained (t : Table) (c : String) (cells : List Val)
    (h : getCol t c = some cells) (hnull : ∀ v ∈ cells, v.isNull = true) :
    getCol (handleNumeric t) c = some cells := by
  rw [handleNumeric]
  generalize columnsMissingNumeric t = cs
  induction cs generalizing t with
  | nil => exact h
  | cons c' rest ih =>
    rw [List.foldl_cons]
    by_cases hcc : c' = c
    · subst hcc
      simp only [h]
      rw [medianFill_of_all_null hnull, fillna_null]
      exact ih (setCol t c' cells) (getCol_setCol_self h cells)
    · cases hg : getCol t c' with
      | none =>
        simp only [hg]
        exact ih t h
      | some cells' =>
        simp only [hg]
        exact ih (setCol t c' (fillna cells' (medianFill cells')))
          (by rw [getCol_setCol_ne (fun hh => hcc hh.symm) _]; exact h)

theorem c5_witness :
    getCol (handleNumeric ⟨[0, 1], [("x", [Val.null, Val.null]),
      ("y", [Val.num 1, Val.null])]⟩) "x" = some [Val.null, Val.null] :=
  c5_all_null_numeric_column_retained _ "x" [Val.null, Val.null] rfl (by decide)

/-- C5 counterexample: a table whose numeric column "x" is entirely null.
`handle_numeric` does not raise anything — it returns a table in which "x"
is still entirely null (and the other numeric column was imputed normally),
contradicting the claim that it fails with a DomainError rather than
completing, and that a successfully returned table never retains such a
column. -/
theorem c5_counterexample :
    isNumericCol [Val.null, Val.null] = true ∧
    handleNumeric ⟨[0, 1], [("a", [Val.null, Val.null]), ("b", [Val.num 1, Val.null])]⟩
      = ⟨[0, 1], [("a", [Val.null, Val.null]), ("b", [Val.num 1, Val.num 1])]⟩ :=
  ⟨rfl, rfl⟩

/-! ## C6 — null handling during numeric normalization -/

theorem exMap_ok_get {α β : Type} {f : α → Except Err β} :
    ∀ (l : List α) (out : List β), exMap f l = .ok out →
      ∀ (i : Nat) (a : α), l.get? i = some a → ∃ b, out.get? i = some b ∧ f a = .ok b := by
  intro l
  induction l with
  | nil => intro out _ i a ha; simp at ha
  | cons v vs ih =>
    intro out hout i a ha
    rw [exMap] at hout
    cases hfv : f v with
    | error e => rw [hfv] at hout; exact Except.noConfusion hout
    | ok w =>
      rw [hfv] at hout
      cases hrest : exMap f vs with
      | error e => rw [hrest] at hout; exact Except.noConfusion hout
      | ok ws =>
        rw [hrest] at hout
        injection hout with hout
        subst hout
        cases i with
        | zero =>
          simp only [List.get?] at ha ⊢
          injection ha with ha
          subst ha
          exact ⟨w, rfl, hfv⟩
        | succ j =>
          simp only [List.get?] at ha ⊢
          exact ih ws hrest j a ha

theorem exMap_cons_error {α β : Type} {f : α → Except Err β} {v : α} {e : Err}
    (hv : f v = .error e) (vs : List α) : exMap f (v :: vs) = .error e := by
  rw [exMap, hv]

theorem exMap_cons_ok_error {α β : Type} {f : α → Except Err β} {v : α} {w : β}
    (hv : f v = .ok w) {vs : List α} {e : Err} (hvs : exMap f vs = .error e) :
    exMap f (v :: vs) = .error e := by
  rw [exMap, hv, hvs]

theorem moneyToNumeric_error_of_null :
    ∀ cells : List Val, Val.null ∈ cells →
      moneyToNumeric cells = Except.error Err.typeError := by
  intro cells
  induction cells with
  | nil => intro h; simp at h
  | cons v vs ih =>
    intro h
    cases v with
    | null => exact exMap_cons_error (f := moneyCell) (by rfl) vs
    | str s =>
      have hvs : Val.null ∈ vs := by
        rcases List.mem_cons.1 h with h0 | h1
        · exact Val.noConfusion h0
        · exact h1
      exact exMap_cons_ok_error (f := moneyCell) (by rfl) (ih hvs)
    | num q => exact exMap_cons_error (f := moneyCell) (by rfl) vs
    | vlist l => exact exMap_cons_error (f := moneyCell) (by rfl) vs

theorem toNumeric_error_of_unparseable :
    ∀ cells : List Val, (∀ l, Val.vlist l ∉ cells) →
      ∀ s, Val.str s ∈ cells → parseNum s = none →
        toNumeric cells = Except.error Err.valueError := by
  intro cells
  induction cells with
  | nil => intro _ s hs; simp at hs
  | cons v vs ih =>
    intro hno s hs hparse
    have hnovs : ∀ l, Val.vlist l ∉ vs := fun l hl => hno l (List.mem_cons_of_mem _ hl)
    have htail : Val.str s ∈ vs → toNumeric vs = Except.error Err.valueError :=
      fun hsvs => ih hnovs s hsvs hparse
    cases v with
    | null =>
      refine exMap_cons_ok_error (f := toNumericCell) (by rfl) (htail ?_)
      rcases List.mem_cons.1 hs with h0 | h1
      · exact Val.noConfusion h0
      · exact h1
    | num q =>
      refine exMap_cons_ok_error (f := toNumericCell) (by rfl) (htail ?_)
      rcases List.mem_cons.1 hs with h0 | h1
      · exact Val.noConfusion h0
      · exact h1
    | str s' =>
      cases hp : parseNum s' with
      | none =>
        refine exMap_cons_error (f := toNumericCell) ?_ vs
        show toNumericCell (Val.str s') = .error Err.valueError
        rw [toNumericCell, hp]
      | some q =>
        have hs' : Val.str s ∈ vs := by
          rcases List.mem_cons.1 hs with h0 | h1
          · injection h0 with hss
            rw [hss] at hparse
            rw [hparse] at hp
            exact Option.noConfusion hp
          · exact h1
        refine exMap_cons_ok_error (f := toNumericCell) (w := Val.num q) ?_ (htail hs')
        show toNumericCell (Val.str s') = .ok (Val.num q)
        rw [toNumericCell, hp]
    | vlist l => exact absurd (List.mem_cons_self _ _) (hno l)

/-- C6 amended: during normalization nulls are skipped only on the
percentage path.  (i) A currency column containing any null raises a
`TypeError` inside `money_to_numeric` (`x[1:]` on a NaN), so a null
currency cell is fatal, not skipped.  (ii) On a percentage column (object
dtype, i.e. holding at least one string) every null passes through `.str
.replace` unchanged and no error is raised.  (iii) `pd.to_numeric` passes
nulls through positionally unchanged, and (iv) raises a `ValueError` for a
cell that is non-null and not convertible after stripping. -/
theorem c6_null_cells_normalization (cells : List Val) :
    (Val.null ∈ cells → moneyToNumeric cells = Except.error Err.typeError) ∧
    (cells.any Val.isStr = true →
      percentageToNumeric cells = Except.ok (cells.map (fun v =>
        match v with
        | Val.str s => Val.str (s.replace "%" "")
        | _ => Val.null)) ∧
      ∀ i, cells.get? i = some Val.null →
        (cells.map (fun v =>
          match v with
          | Val.str s => Val.str (s.replace "%" "")
          | _ => Val.null)).get? i = some Val.null) ∧
    (∀ out, toNumeric cells = Except.ok out →
      ∀ i, cells.get? i = some Val.null → out.get? i = some Val.null) ∧
    ((∀ l, Val.vlist l ∉ cells) → ∀ s, Val.str s ∈ cells → parseNum s = none →
      toNumeric cells = Except.error Err.valueError) := by
  refine ⟨moneyToNumeric_error_of_null cells, ?_, ?_, toNumeric_error_of_unparseable cells⟩
  · intro hstr
    constructor
    · rw [percentageToNumeric, if_pos hstr]
    · intro i hi
      rw [List.get?_map, hi]
      rfl
  · intro out hout i hi
    obtain ⟨b, hb, hfb⟩ := exMap_ok_get cells out hout i Val.null hi
    have : b = Val.null := by
      rw [show toNumericCell Val.null = .ok Val.null from rfl] at hfb
      injection hfb with h
      exact h.symm
    rw [hb, this]

theorem c6_witness :
    moneyToNumeric [Val.str "$5", Val.null] = Except.error Err.typeError ∧
    percentageToNumeric [Val.str "5%", Val.null] =
      Except.ok ([Val.str "5%", Val.null].map (fun v =>
        match v with
        | Val.str s => Val.str (s.replace "%" "")
        | _ => Val.null)) ∧
    toNumeric [Val.str "x", Val.null] = Except.error Err.valueError :=
  ⟨(c6_null_cells_normalization [Val.str "$5", Val.null]).1 (by decide),
   ((c6_null_cells_normalization [Val.str "5%", Val.null]).2.1 (by decide)).1,
   (c6_null_cells_normalization [Val.str "x", Val.null]).2.2.2
     (by intro l hl; simp [List.mem_cons] at hl) "x" (by decide) (by rfl)⟩

/-- C6 counterexample: the claim says a null cell in a currency-formatted
column "is skipped (passes through unchanged, raising no error)"; on the
column `["$5", null]` the source's `money_to_numeric` instead raises a
`TypeError` (slicing the NaN), which `clean_data` does not catch. -/
theorem c6_counterexample :
    moneyToNumeric [Val.str "$5", Val.null] = Except.error Err.typeError ∧
    ∀ out, moneyToNumeric [Val.str "$5", Val.null] ≠ Except.ok out := by
  refine ⟨rfl, ?_⟩
  intro out h
  rw [show moneyToNumeric [Val.str "$5", Val.null] = Except.error Err.typeError from rfl] at h
  exact Except.noConfusion h

/-! ## C7 — the amenities denylist -/

/-- C7 counterexample: one amenities cell producing the tokens
`["b", "", "translation missing: en.hosting_amenity_50"]` (the `_49`
placeholder absent).  The strict drop of all three denylist names raises
`KeyError`, the fallback drops only the empty token, and the returned frame
still contains the indicator column for the `_50` placeholder even though
it is a denylist token that appeared among the generated columns —
contradicting "every denylist token that appears ... is removed". -/
theorem c7_counterexample :
    getDfFromColumn
        ⟨[0], [("amenities", [Val.str "b,,translation missing: en.hosting_amenity_50"])]⟩
        "amenities" id
      = Except.ok ⟨[0],
        [("amenities", [Val.vlist ["b", "", "translation missing: en.hosting_amenity_50"]]),
         ("b", [Val.num 1]),
         ("translation missing: en.hosting_amenity_50", [Val.num 1]),
         ("number_of_amenities", [Val.num 3])]⟩ ∧
    "translation missing: en.hosting_amenity_50" ∈ amenityDenyList ∧
    "translation missing: en.hosting_amenity_50" ∈ colNames
      ⟨[0],
        [("amenities", [Val.vlist ["b", "", "translation missing: en.hosting_amenity_50"]]),
         ("b", [Val.num 1]),
         ("translation missing: en.hosting_amenity_50", [Val.num 1]),
         ("number_of_amenities", [Val.num 3])]⟩ := by
  refine ⟨by rfl, by decide, by decide⟩

/-- C7 amended: after expansion, when *all three* denylist names occur
among the generated columns they are all removed; when at least one is
absent, the strict drop raises `KeyError` internally and the caught
fallback removes only the empty-token column, leaving the other present
denylist columns in place; and if in that situation the empty-token column
is itself absent, `get_df_from_column` fails with a `KeyError`. -/
theorem c7_denylist_amended :
    (∀ (t : Table) (cells : List Val) (lists : List (List String))
        (strip : String → String),
      getCol t "amenities" = some cells →
      tokenLists strip cells = Except.ok lists →
      getDfFromColumn t "amenities" strip =
        (amenitiesDrop (expandFrame lists "amenities")).map
          (fun fr => { labels := t.labels, data := fr })) ∧
    (∀ frame : List (String × List Val),
      (amenityDenyList.all (fun n => frame.any (fun p => p.1 = n)) = true →
        amenitiesDrop frame =
          Except.ok (frame.filter (fun p => !amenityDenyList.contains p.1))) ∧
      (amenityDenyList.all (fun n => frame.any (fun p => p.1 = n)) = false →
        (frame.any (fun p => p.1 = "") = true →
          amenitiesDrop frame =
            Except.ok (frame.filter (fun p => !([""] : List String).contains p.1))) ∧
        (frame.any (fun p => p.1 = "") = false →
          amenitiesDrop frame = Except.error Err.keyError))) := by
  constructor
  · intro t cells lists strip hcells hlists
    simp only [getDfFromColumn, hcells, hlists, if_pos rfl]
    cases amenitiesDrop (expandFrame lists "amenities") <;> rfl
  · intro frame
    constructor
    · intro hall
      rw [amenitiesDrop, dropColsL, if_pos hall]
    · intro hnall
      rw [amenitiesDrop, dropColsL, if_neg (by rw [hnall]; exact Bool.false_ne_true)]
      constructor
      · intro hempty
        have hall1 : ([amenityDenyList.getD 0 ""]).all
            (fun n => frame.any (fun p => p.1 = n)) = true := by
          simp only [amenityDenyList, List.getD, List.get?, Option.getD, List.all_cons,
            List.all_nil, Bool.and_true]
          exact hempty
        rw [dropColsL, if_pos hall1]
        rfl
      · intro hnempty
        have hall0 : ([amenityDenyList.getD 0 ""]).all
            (fun n => frame.any (fun p => p.1 = n)) = false := by
          simp only [amenityDenyList, List.getD, List.get?, Option.getD, List.all_cons,
            List.all_nil, Bool.and_true]
          exact hnempty
        rw [dropColsL, if_neg (by rw [hall0]; exact Bool.false_ne_true)]

theorem c7_witness :
    getDfFromColumn
        ⟨[0, 1], [("amenities",
          [Val.str "tv,translation missing: en.hosting_amenity_49,",
           Val.str "tv,translation missing: en.hosting_amenity_50,"])]⟩
        "amenities" id =
      (amenitiesDrop (expandFrame
        [["tv", "translation missing: en.hosting_amenity_49", ""],
         ["tv", "translation missing: en.hosting_amenity_50", ""]] "amenities")).map
        (fun fr => { labels := [0, 1], data := fr }) ∧
    amenitiesDrop (expandFrame
        [["tv", "translation missing: en.hosting_amenity_49", ""],
         ["tv", "translation missing: en.hosting_amenity_50", ""]] "amenities") =
      Except.ok ((expandFrame
        [["tv", "translation missing: en.hosting_amenity_49", ""],
         ["tv", "translation missing: en.hosting_amenity_50", ""]] "amenities").filter
          (fun p => !amenityDenyList.contains p.1)) :=
  ⟨c7_denylist_amended.1 _ _ _ id rfl rfl,
   (c7_denylist_amended.2 _).1 (by rfl)⟩

/-! ## Lemmas about maxCount and firstMode -/

theorem le_foldr_max (m : List Nat) : ∀ a ∈ m, a ≤ m.foldr max 0 := by
  induction m with
  | nil => intro a ha; simp at ha
  | cons x xs ih =>
    intro a ha
    rcases List.mem_cons.1 ha with h0 | h1
    · rw [h0, List.foldr_cons]
      exact Nat.le_max_left _ _
    · rw [List.foldr_cons]
      exact le_trans (ih a h1) (Nat.le_max_right _ _)

theorem foldr_max_mem (m : List Nat) (h : m ≠ []) :
    m.foldr max 0 ∈ m ∨ m.foldr max 0 = 0 := by
  induction m with
  | nil => exact absurd rfl h
  | cons x xs ih =>
    rw [List.foldr_cons]
    rcases Nat.le_total x (xs.foldr max 0) with hle | hle
    · rw [Nat.max_eq_right hle]
      cases xs with
      | nil => right; simpa using hle
      | cons y ys =>
        rcases ih (by simp) with hm | h0
        · exact Or.inl (List.mem_cons_of_mem _ hm)
        · exact Or.inr h0
    · rw [Nat.max_eq_left hle]
      exact Or.inl (List.mem_cons_self _ _)

theorem count_le_maxCount {l : List Val} {x : Val} (h : x ∈ l) :
    l.count x ≤ maxCount l :=
  le_foldr_max _ _ (List.mem_map.2 ⟨x, h, rfl⟩)

theorem maxCount_pos {l : List Val} (h : l ≠ []) : 0 < maxCount l := by
  cases l with
  | nil => exact absurd rfl h
  | cons x xs =>
    have hx : 0 < (x :: xs).count x := List.count_pos_iff.2 (List.mem_cons_self _ _)
    exact lt_of_lt_of_le hx (count_le_maxCount (List.mem_cons_self _ _))

theorem exists_count_eq_maxCount {l : List Val} (h : l ≠ []) :
    ∃ x ∈ l, l.count x = maxCount l := by
  have hmm : maxCount l ∈ l.map (fun v => l.count v) ∨ maxCount l = 0 :=
    foldr_max_mem _ (by
      intro hnil
      exact h (List.map_eq_nil.1 hnil))
  rcases hmm with hm | h0
  · obtain ⟨x, hx, hcx⟩ := List.mem_map.1 hm
    exact ⟨x, hx, hcx⟩
  · exact absurd h0 (Nat.pos_iff_ne_zero.1 (maxCount_pos h))

theorem firstMode_spec {l : List Val} (h : l ≠ []) :
    ∃ v, firstMode l = some v ∧ v ∈ l ∧ l.count v = maxCount l := by
  cases hf : firstMode l with
  | none =>
    obtain ⟨x, hx, hcx⟩ := exists_count_eq_maxCount h
    rw [firstMode, List.find?_eq_none] at hf
    have hb : (l.count x == maxCount l) = true := by rw [hcx]; exact beq_self_eq_true _
    exact absurd hb (hf x hx)
  | some v =>
    refine ⟨v, rfl, List.mem_of_find?_eq_some hf, ?_⟩
    have hb := List.find?_some hf
    exact eq_of_beq hb

theorem firstMode_eq_none {l : List Val} (h : firstMode l = none) : l = [] := by
  cases l with
  | nil => rfl
  | cons x xs =>
    obtain ⟨v, hv, -⟩ := firstMode_spec (l := x :: xs) (by simp)
    rw [h] at hv
    exact Option.noConfusion hv

theorem mem_nnVals_not_null {l : List (Val × Val)} {z v : Val} (h : v ∈ nnVals l z) :
    v.isNull = false := by
  have := List.of_mem_filter h
  simpa using this

theorem pdEq_spec {a b : Val} (h : pdEq a b = true) :
    a.isNull = false ∧ b.isNull = false ∧ a = b := by
  rw [pdEq, Bool.and_eq_true, Bool.and_eq_true] at h
  obtain ⟨⟨ha, hb⟩, hab⟩ := h
  exact ⟨by simpa using ha, by simpa using hb, by
    have := hab
    exact eq_of_beq this⟩

/-! ## The get_mode_by_zip invariant -/

/-- The row predicate counting, over (zipcode, target) pairs, the rows in
zip group `z` whose target equals `v`. -/
def pairPred (z v : Val) (p : Val × Val) : Bool := pdEq p.1 z && p.2 == v

theorem count_nnVals (l : List (Val × Val)) (z v : Val) (hv : v.isNull = false) :
    (nnVals l z).count v = l.countP (pairPred z v) := by
  show ((((l.filter (fun p => pdEq p.1 z)).map (·.2)).filter
      (fun x => !x.isNull)).countP (· == v)) = _
  rw [List.countP_filter, List.countP_map, List.countP_filter]
  apply List.countP_congr
  intro p _
  simp only [Function.comp, pairPred, Bool.and_eq_true, beq_iff_eq, Bool.not_eq_true']
  constructor
  · rintro ⟨⟨hpv, -⟩, hg⟩
    exact ⟨hg, hpv⟩
  · rintro ⟨hg, hpv⟩
    refine ⟨⟨hpv, ?_⟩, hg⟩
    rw [hpv]
    exact hv

/-- A value that attains the (positive) maximal multiplicity among the
original non-null target values of zip group `z`. -/
def GoodVal (orig : List (Val × Val)) (z v : Val) : Prop :=
  v.isNull = false ∧ 0 < maxCount (nnVals orig z) ∧
    (nnVals orig z).count v = maxCount (nnVals orig z)

/-- Relating an original row to its current state during the imputation
loop: the zipcode is untouched, a non-null target is untouched, and an
originally-null target is either still null or was imputed to a mode of its
group's original non-null values. -/
def InvR (orig : List (Val × Val)) (p q : Val × Val) : Prop :=
  q.1 = p.1 ∧ (p.2.isNull = false → q.2 = p.2) ∧
    (p.2.isNull = true → q.2 = Val.null ∨ GoodVal orig p.1 q.2)

def LoopInv (orig cur : List (Val × Val)) : Prop := List.Forall₂ (InvR orig) orig cur

theorem loopInv_refl (l : List (Val × Val)) : LoopInv l l :=
  List.forall₂_same.2 (fun p _ => ⟨rfl, fun _ => rfl, fun h => Or.inl (by
    cases hp : p.2 with
    | null => rfl
    | str s => rw [hp] at h; exact Bool.noConfusion h
    | num q => rw [hp] at h; exact Bool.noConfusion h
    | vlist m => rw [hp] at h; exact Bool.noConfusion h)⟩)

theorem countP_mono_of_forall₂ {orig l1 l2 : List (Val × Val)}
    (hinv : List.Forall₂ (InvR orig) l1 l2)
    (z v : Val) (hv : v.isNull = false) :
    l1.countP (pairPred z v) ≤ l2.countP (pairPred z v) ∧
      (l1.countP (pairPred z v) < l2.countP (pairPred z v) → GoodVal orig z v) := by
  induction hinv with
  | nil => simp
  | @cons a b l1 l2 hR hrest ih =>
    rw [List.countP_cons, List.countP_cons]
    have hfst : b.1 = a.1 := hR.1
    cases hpa : pairPred z v a with
    | true =>
      have htmp := hpa
      rw [pairPred, Bool.and_eq_true] at htmp
      have ha2 : a.2 = v := eq_of_beq htmp.2
      have ha2nn : a.2.isNull = false := by rw [ha2]; exact hv
      have hb2 : b.2 = a.2 := hR.2.1 ha2nn
      have hpb : pairPred z v b = true := by
        rw [pairPred, hfst, hb2, ← pairPred]
        exact hpa
      rw [hpb]
      refine ⟨Nat.add_le_add_right ih.1 1, fun hlt => ih.2 ?_⟩
      exact Nat.lt_of_add_lt_add_right hlt
    | false =>
      cases hpb : pairPred z v b with
      | false =>
        simpa using ih
      | true =>
        have hgood : GoodVal orig z v := by
          have hsplit := hpb
          rw [pairPred, Bool.and_eq_true] at hsplit
          have hb2v : b.2 = v := eq_of_beq hsplit.2
          have hpdb : pdEq b.1 z = true := hsplit.1
          have hpda : pdEq a.1 z = true := by rw [← hfst]; exact hpdb
          have haz : a.1 = z := (pdEq_spec hpda).2.2
          cases ha2n : a.2.isNull with
          | false =>
            exfalso
            have hb2 : b.2 = a.2 := hR.2.1 ha2n
            have : pairPred z v a = true := by
              rw [pairPred, ← hfst, ← hb2]
              exact hpb
            rw [hpa] at this
            exact Bool.noConfusion this
          | true =>
            rcases hR.2.2 ha2n with hnull | hg
            · exfalso
              rw [hnull] at hb2v
              rw [← hb2v] at hv
              exact Bool.noConfusion hv
            · rw [hb2v] at hg
              rw [haz] at hg
              exact hg
        refine ⟨?_, fun _ => hgood⟩
        show l1.countP (pairPred z v) + 0 ≤ l2.countP (pairPred z v) + 1
        exact le_trans (by simpa using ih.1) (Nat.le_succ _)

theorem countP_mono_of_inv {orig cur : List (Val × Val)} (hinv : LoopInv orig cur)
    (z v : Val) (hv : v.isNull = false) :
    orig.countP (pairPred z v) ≤ cur.countP (pairPred z v) ∧
      (orig.countP (pairPred z v) < cur.countP (pairPred z v) → GoodVal orig z v) :=
  countP_mono_of_forall₂ hinv z v hv

theorem nnVals_cur_empty {orig cur : List (Val × Val)} (hinv : LoopInv orig cur)
    {z : Val} (h : nnVals orig z = []) : nnVals cur z = [] := by
  rw [List.eq_nil_iff_forall_not_mem]
  intro x hx
  have hxnn : x.isNull = false := mem_nnVals_not_null hx
  have hpos : 0 < (nnVals cur z).count x := List.count_pos_iff.2 hx
  rw [count_nnVals cur z x hxnn] at hpos
  have hzero : orig.countP (pairPred z x) = 0 := by
    rw [← count_nnVals orig z x hxnn, h]
    rfl
  have hstrict := (countP_mono_of_inv hinv z x hxnn).2 (by rw [hzero]; exact hpos)
  have := hstrict.2.1
  rw [h] at this
  exact absurd this (by decide)

theorem searchSimilarZip_good {orig cur : List (Val × Val)} (hinv : LoopInv orig cur)
    {z : Val} (h : nnVals orig z ≠ []) :
    GoodVal orig z (searchSimilarZip cur z) := by
  obtain ⟨m, hm, hcm⟩ := exists_count_eq_maxCount h
  have hmnn : m.isNull = false := mem_nnVals_not_null hm
  have hMpos : 0 < maxCount (nnVals orig z) := maxCount_pos h
  have hles := (countP_mono_of_inv hinv z m hmnn).1
  have hcount_m_cur : maxCount (nnVals orig z) ≤ (nnVals cur z).count m := by
    rw [count_nnVals cur z m hmnn]
    rw [count_nnVals orig z m hmnn] at hcm
    rw [← hcm]
    exact hles
  have hmcur : m ∈ nnVals cur z :=
    List.count_pos_iff.1 (lt_of_lt_of_le hMpos hcount_m_cur)
  have hne : nnVals cur z ≠ [] := List.ne_nil_of_mem hmcur
  obtain ⟨w, hw, hwmem, hwcount⟩ := firstMode_spec hne
  have hsearch : searchSimilarZip cur z = w := by
    rw [searchSimilarZip, hw]
  rw [hsearch]
  have hwnn : w.isNull = false := mem_nnVals_not_null hwmem
  have hMcur_ge : maxCount (nnVals orig z) ≤ maxCount (nnVals cur z) :=
    le_trans hcount_m_cur (count_le_maxCount hmcur)
  have hwcur_ge : maxCount (nnVals orig z) ≤ (nnVals cur z).count w := by
    rw [hwcount]
    exact hMcur_ge
  rcases Nat.lt_or_ge (orig.countP (pairPred z w)) (cur.countP (pairPred z w)) with hlt | hge
  · exact (countP_mono_of_inv hinv z w hwnn).2 hlt
  · have heq : (nnVals orig z).count w = (nnVals cur z).count w := by
      rw [count_nnVals orig z w hwnn, count_nnVals cur z w hwnn]
      exact le_antisymm ((countP_mono_of_inv hinv z w hwnn).1) hge
    have hworig_ge : maxCount (nnVals orig z) ≤ (nnVals orig z).count w := by
      rw [heq]
      exact hwcur_ge
    have hworig_mem : w ∈ nnVals orig z :=
      List.count_pos_iff.1 (lt_of_lt_of_le hMpos hworig_ge)
    exact ⟨hwnn, hMpos, le_antisymm (count_le_maxCount hworig_mem) hworig_ge⟩

theorem forall₂_get? {α β : Type} {R : α → β → Prop} :
    ∀ {l1 : List α} {l2 : List β}, List.Forall₂ R l1 l2 →
      ∀ {i : Nat} {a : α}, l1.get? i = some a → ∃ b, l2.get? i = some b ∧ R a b := by
  intro l1 l2 h
  induction h with
  | nil => intro i a ha; simp at ha
  | @cons x y t1 t2 hxy htail ih =>
    intro i a ha
    cases i with
    | zero =>
      simp only [List.get?] at ha ⊢
      injection ha with ha
      subst ha
      exact ⟨y, rfl, hxy⟩
    | succ j =>
      simp only [List.get?] at ha ⊢
      exact ih ha

theorem forall₂_set {α β : Type} {R : α → β → Prop} :
    ∀ {l1 : List α} {l2 : List β}, List.Forall₂ R l1 l2 →
      ∀ {i : Nat} {a : α} {b : β}, l1.get? i = some a → R a b →
        List.Forall₂ R l1 (l2.set i b) := by
  intro l1 l2 h
  induction h with
  | nil => intro i a b ha _; simp at ha
  | @cons x y t1 t2 hxy htail ih =>
    intro i a b ha hab
    cases i with
    | zero =>
      simp only [List.get?] at ha
      injection ha with ha
      subst ha
      exact List.Forall₂.cons hab htail
    | succ j =>
      simp only [List.get?] at ha
      exact List.Forall₂.cons hxy (ih ha hab)

theorem loopInv_step {orig cur : List (Val × Val)} (hinv : LoopInv orig cur)
    {i : Nat} {p : Val × Val} (hp : orig.get? i = some p) (hnull : p.2.isNull = true) :
    LoopInv orig (imputeStep cur i) := by
  obtain ⟨q, hq, hR⟩ := forall₂_get? hinv hp
  rw [imputeStep, hq]
  have hq1 : q.1 = p.1 := hR.1
  refine forall₂_set hinv hp ⟨hq1, ?_, ?_⟩
  · intro hnn
    rw [hnn] at hnull
    exact Bool.noConfusion hnull
  · intro _
    by_cases hz : nnVals orig q.1 = []
    · left
      have hcur : nnVals cur q.1 = [] := nnVals_cur_empty hinv hz
      show searchSimilarZip cur q.1 = Val.null
      rw [searchSimilarZip, hcur]
      rfl
    · right
      rw [← hq1]
      exact searchSimilarZip_good hinv hz

theorem loopInv_fold {orig : List (Val × Val)} :
    ∀ (idxs : List Nat) (cur : List (Val × Val)), LoopInv orig cur →
      (∀ i ∈ idxs, ∃ p, orig.get? i = some p ∧ p.2.isNull = true) →
      LoopInv orig (idxs.foldl imputeStep cur) := by
  intro idxs
  induction idxs with
  | nil => intro cur h _; exact h
  | cons j rest ih =>
    intro cur h hall
    rw [List.foldl_cons]
    obtain ⟨p, hp, hpn⟩ := hall j (List.mem_cons_self _ _)
    exact ih _ (loopInv_step h hp hpn)
      (fun i hi => hall i (List.mem_cons_of_mem _ hi))

theorem fold_get?_of_not_mem :
    ∀ (idxs : List Nat) (cur : List (Val × Val)) (i : Nat), i ∉ idxs →
      (idxs.foldl imputeStep cur).get? i = cur.get? i := by
  intro idxs
  induction idxs with
  | nil => intro cur i _; rfl
  | cons j rest ih =>
    intro cur i hi
    rw [List.foldl_cons]
    have hij : i ≠ j := fun h => hi (h ▸ List.mem_cons_self _ _)
    rw [ih _ i (fun h => hi (List.mem_cons_of_mem _ h))]
    rw [imputeStep]
    cases hq : cur.get? j with
    | none => rfl
    | some q => exact List.get?_set_ne _ _ (fun h => hij h.symm)

theorem fold_entry_good {orig : List (Val × Val)} :
    ∀ (idxs : List Nat) (cur : List (Val × Val)), LoopInv orig cur →
      (∀ j ∈ idxs, ∃ p, orig.get? j = some p ∧ p.2.isNull = true) →
      ∀ (i : Nat) (p : Val × Val), i ∈ idxs → orig.get? i = some p →
        nnVals orig p.1 ≠ [] →
        ∃ v, (idxs.foldl imputeStep cur).get? i = some (p.1, v) ∧ GoodVal orig p.1 v := by
  intro idxs
  induction idxs with
  | nil => intro cur _ _ i p hi; simp at hi
  | cons j rest ih =>
    intro cur hinv hall i p hi hp hz
    rw [List.foldl_cons]
    obtain ⟨pj, hpj, hpjn⟩ := hall j (List.mem_cons_self _ _)
    have hinv' : LoopInv orig (imputeStep cur j) := loopInv_step hinv hpj hpjn
    have hall' : ∀ k ∈ rest, ∃ p, orig.get? k = some p ∧ p.2.isNull = true :=
      fun k hk => hall k (List.mem_cons_of_mem _ hk)
    by_cases hir : i ∈ rest
    · exact ih _ hinv' hall' i p hir hp hz
    · have hij : i = j := by
        rcases List.mem_cons.1 hi with h0 | h1
        · exact h0
        · exact absurd h1 hir
      subst hij
      obtain ⟨q, hq, hR⟩ := forall₂_get? hinv hp
      have hq1 : q.1 = p.1 := hR.1
      have hilt : i < cur.length := by
        cases hlen : cur.length with
        | zero =>
          rw [List.length_eq_zero.1 hlen] at hq
          exact absurd hq (by simp)
        | succ n =>
          rcases Nat.lt_or_ge i (n + 1) with h | h
          · exact h
          · rw [List.get?_eq_none.2 (by rw [hlen]; exact h)] at hq
            exact Option.noConfusion hq
      have hstep : (imputeStep cur i).get? i = some (q.1, searchSimilarZip cur q.1) := by
        rw [imputeStep, hq]
        exact List.get?_set_eq_of_lt _ hilt
      have hgood : GoodVal orig p.1 (searchSimilarZip cur q.1) := by
        rw [hq1]
        exact searchSimilarZip_good hinv hz
      refine ⟨searchSimilarZip cur q.1, ?_, hgood⟩
      rw [fold_get?_of_not_mem rest _ i hir, hstep, hq1]

theorem mem_nullIdxs {l : List (Val × Val)} {j : Nat} (hj : j ∈ nullIdxs l) :
    ∃ p, l.get? j = some p ∧ p.2.isNull = true := by
  rw [nullIdxs, List.mem_filter] at hj
  obtain ⟨-, hpred⟩ := hj
  cases hq : l.get? j with
  | none => rw [hq] at hpred; exact Bool.noConfusion hpred
  | some p =>
    rw [hq] at hpred
    exact ⟨p, rfl, hpred⟩

theorem nullIdxs_mem {l : List (Val × Val)} {i : Nat} {p : Val × Val}
    (hp : l.get? i = some p) (hnull : p.2.isNull = true) : i ∈ nullIdxs l := by
  rw [nullIdxs, List.mem_filter]
  constructor
  · rw [List.mem_range]
    cases hlen : l.length with
    | zero =>
      rw [List.length_eq_zero.1 hlen] at hp
      exact absurd hp (by simp)
    | succ n =>
      rcases Nat.lt_or_ge i (n + 1) with h | h
      · exact h
      · rw [List.get?_eq_none.2 (by rw [hlen]; exact h)] at hp
        exact Option.noConfusion hp
  · rw [hp]
    exact hnull

theorem imputeByZip_good {l : List (Val × Val)} {i : Nat} {p : Val × Val}
    (hp : l.get? i = some p) (hnull : p.2.isNull = true) (hz : nnVals l p.1 ≠ []) :
    ∃ v, (imputeByZip l).get? i = some (p.1, v) ∧ GoodVal l p.1 v :=
  fold_entry_good (nullIdxs l) l (loopInv_refl l) (fun _ hj => mem_nullIdxs hj)
    i p (nullIdxs_mem hp hnull) hp hz

theorem imputeByZip_null {l : List (Val × Val)} {i : Nat} {p : Val × Val}
    (hp : l.get? i = some p) (hnull : p.2.isNull = true) (hz : nnVals l p.1 = []) :
    (imputeByZip l).get? i = some (p.1, Val.null) := by
  have hinv : LoopInv l (imputeByZip l) :=
    loopInv_fold (nullIdxs l) l (loopInv_refl l) (fun _ hj => mem_nullIdxs hj)
  obtain ⟨q, hq, hR⟩ := forall₂_get? hinv hp
  have hq1 : q.1 = p.1 := hR.1
  rcases hR.2.2 hnull with hq2 | hgood
  · rw [hq]
    have hqe : q = (p.1, Val.null) := by
      rw [← hq1, ← hq2]
    rw [hqe]
  · exfalso
    have := hgood.2.1
    rw [hz] at this
    exact absurd this (by decide)

theorem nnVals_cons (a : Val × Val) (l : List (Val × Val)) (z : Val) :
    nnVals (a :: l) z =
      if pdEq a.1 z && !a.2.isNull then a.2 :: nnVals l z else nnVals l z := by
  rw [nnVals, nnVals]
  cases hg : pdEq a.1 z with
  | false =>
    rw [List.filter_cons_of_neg (by rw [hg]; exact Bool.false_ne_true)]
    simp only [hg, Bool.false_and, if_neg Bool.false_ne_true]
  | true =>
    rw [List.filter_cons_of_pos (by rw [hg]), List.map_cons]
    cases hn : a.2.isNull with
    | true =>
      rw [List.filter_cons_of_neg (by rw [hn]; exact Bool.false_ne_true)]
      simp only [hg, hn, Bool.true_and, Bool.not_true, if_neg Bool.false_ne_true]
    | false =>
      rw [List.filter_cons_of_pos (by rw [hn]; rfl)]
      simp only [hg, hn, Bool.true_and, Bool.not_false, if_true]

theorem nnVals_eraseIdx :
    ∀ (l : List (Val × Val)) (i : Nat) (p : Val × Val), l.get? i = some p →
      p.2.isNull = true → ∀ z, nnVals (l.eraseIdx i) z = nnVals l z := by
  intro l
  induction l with
  | nil => intro i p hp; simp at hp
  | cons a rest ih =>
    intro i p hp hnull z
    cases i with
    | zero =>
      simp only [List.get?] at hp
      injection hp with hp
      subst hp
      rw [List.eraseIdx_cons_zero, nnVals_cons, hnull]
      simp only [Bool.not_true, Bool.and_false, if_neg Bool.false_ne_true]
    | succ j =>
      simp only [List.get?] at hp
      rw [List.eraseIdx_cons_succ, nnVals_cons, nnVals_cons, ih j p hp hnull z]

theorem zip_get? {α β : Type} :
    ∀ (l1 : List α) (l2 : List β) (i : Nat) (a : α) (b : β),
      l1.get? i = some a → l2.get? i = some b → (l1.zip l2).get? i = some (a, b) := by
  intro l1
  induction l1 with
  | nil => intro l2 i a b ha; simp at ha
  | cons x xs ih =>
    intro l2 i a b ha hb
    cases l2 with
    | nil => simp at hb
    | cons y ys =>
      cases i with
      | zero =>
        simp only [List.get?] at ha hb
        injection ha with ha
        injection hb with hb
        subst ha; subst hb
        rfl
      | succ j =>
        simp only [List.get?] at ha hb
        rw [List.zip_cons_cons]
        simp only [List.get?]
        exact ih ys j a b ha hb

/-! ## C1 — get_mode_by_zip assigns a zip-scoped mode to each null cell -/

/-- C1: on a well-formed table, for each row whose target cell is null and
which has at least one non-null peer (another row with equal zipcode and a
non-null target, nulls and null zipcodes never matching), `get_mode_by_zip`
assigns that cell a non-null value attaining the maximal multiplicity among
the original peer values.  The loop is a deterministic function of the
input (ties resolved by the fixed `firstMode` order standing in for
pandas's fixed-but-unspecified `value_counts` tie order), so repeated runs
agree. -/
theorem c1_get_mode_by_zip_assigns_peer_mode
    (t : Table) (c : String) (zs ts : List Val)
    (hwf : Wf t) (hz : getCol t "zipcode" = some zs) (hc : getCol t c = some ts)
    (hcz : c ≠ "zipcode") :
    ∃ u, getModeByZip t c = Except.ok u ∧
      ∃ ts2, getCol u c = some ts2 ∧
        ∀ i z, zs.get? i = some z → ts.get? i = some Val.null →
          origPeerVals (zs.zip ts) i z ≠ [] →
          ∃ v, ts2.get? i = some v ∧ v.isNull = false ∧
            (origPeerVals (zs.zip ts) i z).count v =
              maxCount (origPeerVals (zs.zip ts) i z) := by
  refine ⟨setCol t c ((imputeByZip (zs.zip ts)).map (·.2)), ?_, ?_⟩
  · rw [getModeByZip, hz, hc]
  · refine ⟨_, getCol_setCol_self hc _, ?_⟩
    intro i z hzi hti hpe
    have hpair : (zs.zip ts).get? i = some (z, Val.null) := zip_get? zs ts i z Val.null hzi hti
    have hnn_eq : origPeerVals (zs.zip ts) i z = nnVals (zs.zip ts) z := by
      rw [origPeerVals]
      exact nnVals_eraseIdx _ i (z, Val.null) hpair rfl z
    rw [hnn_eq] at hpe ⊢
    obtain ⟨v, hv, hgood⟩ := imputeByZip_good hpair rfl hpe
    refine ⟨v, ?_, hgood.1, hgood.2.2⟩
    rw [List.get?_map, hv]
    rfl

def tableC1 : Table :=
  ⟨[0, 1, 2, 3],
   [("zipcode", [Val.str "90210", Val.str "90210", Val.str "90210", Val.str "90210"]),
    ("market", [Val.str "A", Val.str "A", Val.null, Val.str "B"])]⟩

theorem c1_witness :
    ∃ u, getModeByZip tableC1 "market" = Except.ok u ∧
      ∃ ts2, getCol u "market" = some ts2 ∧
        ∀ i z, [Val.str "90210", Val.str "90210", Val.str "90210", Val.str "90210"].get? i
            = some z →
          [Val.str "A", Val.str "A", Val.null, Val.str "B"].get? i = some Val.null →
          origPeerVals ([Val.str "90210", Val.str "90210", Val.str "90210",
            Val.str "90210"].zip [Val.str "A", Val.str "A", Val.null, Val.str "B"]) i z ≠ [] →
          ∃ v, ts2.get? i = some v ∧ v.isNull = false ∧
            (origPeerVals ([Val.str "90210", Val.str "90210", Val.str "90210",
              Val.str "90210"].zip [Val.str "A", Val.str "A", Val.null, Val.str "B"]) i z).count v =
              maxCount (origPeerVals ([Val.str "90210", Val.str "90210", Val.str "90210",
                Val.str "90210"].zip [Val.str "A", Val.str "A", Val.null, Val.str "B"]) i z) :=
  c1_get_mode_by_zip_assigns_peer_mode tableC1 "market" _ _ (by decide) rfl rfl (by decide)

/-! ## C2 — fallback behaviour and the final row cleanup -/

theorem applyMask_cons (b : Bool) (bs : List Bool) (x : α) (xs : List α) :
    applyMask (b :: bs) (x :: xs) =
      if b then x :: applyMask bs xs else applyMask bs xs := by
  cases b <;> rfl

theorem mem_applyMask {x : α} : ∀ (mask : List Bool) (l : List α),
    x ∈ applyMask mask l → x ∈ l := by
  intro mask
  induction mask with
  | nil => intro l h; simp [applyMask] at h
  | cons b bs ih =>
    intro l h
    cases l with
    | nil => simp [applyMask] at h
    | cons y ys =>
      rw [applyMask_cons] at h
      cases b with
      | true =>
        rcases List.mem_cons.1 (by simpa using h) with h0 | h1
        · rw [h0]; exact List.mem_cons_self _ _
        · exact List.mem_cons_of_mem _ (ih ys h1)
      | false => exact List.mem_cons_of_mem _ (ih ys (by simpa using h))

theorem applyMask_length_eq {l1 : List α} {l2 : List β} :
    ∀ (mask : List Bool), l1.length = l2.length →
      (applyMask mask l1).length = (applyMask mask l2).length := by
  intro mask
  induction mask generalizing l1 l2 with
  | nil => intro h; rfl
  | cons b bs ih =>
    intro h
    cases l1 with
    | nil =>
      cases l2 with
      | nil => rfl
      | cons y ys => simp at h
    | cons x xs =>
      cases l2 with
      | nil => simp at h
      | cons y ys =>
        rw [applyMask_cons, applyMask_cons]
        cases b with
        | true =>
          simp only [if_true, List.length_cons]
          rw [ih (by simpa using h)]
        | false =>
          simp only [if_neg Bool.false_ne_true]
          exact ih (by simpa using h)

theorem no_null_masked_out :
    ∀ (labels : List Nat) (cells : List Val) (ls : List Nat),
      (∀ pr ∈ labels.zip cells, (pr : Nat × Val).2.isNull = true → pr.1 ∈ ls) →
      Val.null ∉ applyMask (labels.map (fun l => !ls.contains l)) cells := by
  intro labels
  induction labels with
  | nil => intro cells ls _ h; simp [applyMask] at h
  | cons a as ih =>
    intro cells ls hcov h
    cases cells with
    | nil => simp [applyMask] at h
    | cons v vs =>
      rw [List.map_cons, applyMask_cons] at h
      have hcovtail : ∀ pr ∈ as.zip vs, (pr : Nat × Val).2.isNull = true → pr.1 ∈ ls :=
        fun pr hpr => hcov pr (by rw [List.zip_cons_cons]; exact List.mem_cons_of_mem _ hpr)
      cases hc : (!ls.contains a) with
      | false =>
        rw [hc, if_neg Bool.false_ne_true] at h
        exact ih vs ls hcovtail h
      | true =>
        rw [hc, if_pos rfl] at h
        rcases List.mem_cons.1 h with h0 | h1
        · have hvnull : v.isNull = true := by rw [← h0]; rfl
          have hmem : a ∈ ls :=
            hcov (a, v) (by rw [List.zip_cons_cons]; exact List.mem_cons_self _ _) hvnull
          have hca : ls.contains a = true := List.elem_eq_true_of_mem hmem
          rw [hca] at hc
          exact Bool.noConfusion hc
        · exact ih vs ls hcovtail h1

theorem findSnd_map_snd (f : List Val → List Val) (c : String) :
    ∀ d : List (String × List Val),
      (((d.map (fun p => (p.1, f p.2))).find? (fun p => p.1 = c)).map (·.2)) =
        ((d.find? (fun p => p.1 = c)).map (·.2)).map f := by
  intro d
  induction d with
  | nil => simp
  | cons p rest ih =>
    by_cases hpc : p.1 = c
    · rw [List.map_cons, List.find?_cons_of_pos _ (by simpa using hpc),
        List.find?_cons_of_pos _ (by simpa using hpc)]
      rfl
    · rw [List.map_cons, List.find?_cons_of_neg _ (by simpa using hpc),
        List.find?_cons_of_neg _ (by simpa using hpc)]
      exact ih

theorem getCol_dropRowsByLabels (t : Table) (ls : List Nat) (c : String) :
    getCol (dropRowsByLabels t ls) c =
      (getCol t c).map (applyMask (t.labels.map (fun l => !ls.contains l))) := by
  show (((t.data.map (fun p => (p.1, applyMask (t.labels.map (fun l => !ls.contains l)) p.2))).find?
      (fun p => p.1 = c)).map (·.2)) = _
  rw [findSnd_map_snd]
  rfl

theorem getCol_length {t : Table} {c : String} {cells : List Val}
    (hwf : Wf t) (h : getCol t c = some cells) : cells.length = t.labels.length := by
  rw [getCol] at h
  obtain ⟨p, hp, hp2⟩ := Option.map_eq_some'.1 h
  rw [← hp2]
  exact hwf p (List.mem_of_find?_eq_some hp)

theorem wf_dropRowsByLabels {t : Table} (hwf : Wf t) (ls : List Nat) :
    Wf (dropRowsByLabels t ls) := by
  intro p hp
  obtain ⟨q, hq, hpq⟩ := List.mem_map.1 hp
  rw [← hpq]
  exact applyMask_length_eq _ (hwf q hq)

theorem wf_setCol {t : Table} {c : String} {cells : List Val}
    (hwf : Wf t) (hlen : cells.length = t.labels.length) : Wf (setCol t c cells) := by
  intro p hp
  rw [setCol, setColL] at hp
  by_cases hany : t.data.any (fun p => p.1 = c) = true
  · rw [if_pos hany] at hp
    obtain ⟨q, hq, hpq⟩ := List.mem_map.1 hp
    by_cases hqc : q.1 = c
    · rw [if_pos hqc] at hpq
      rw [← hpq]
      exact hlen
    · rw [if_neg hqc] at hpq
      rw [← hpq]
      exact hwf q hq
  · rw [if_neg hany] at hp
    rcases List.mem_append.1 hp with hl | hr
    · exact hwf p hl
    · rw [List.mem_singleton.1 hr]
      exact hlen

theorem dropColsStrict_ok {t u : Table} {names : List String}
    (h : dropColsStrict t names = .ok u) :
    u.labels = t.labels ∧ u.data = t.data.filter (fun p => !names.contains p.1) := by
  rw [dropColsStrict, dropColsL] at h
  by_cases hall : names.all (fun n => t.data.any (fun p => p.1 = n)) = true
  · rw [if_pos hall] at h
    injection h with h
    rw [← h]
    exact ⟨rfl, rfl⟩
  · rw [if_neg hall] at h
    exact Except.noConfusion h

theorem wf_dropColsStrict {t u : Table} {names : List String}
    (hwf : Wf t) (h : dropColsStrict t names = .ok u) : Wf u := by
  obtain ⟨hl, hd⟩ := dropColsStrict_ok h
  intro p hp
  rw [hd] at hp
  rw [hl]
  exact hwf p (List.mem_of_mem_filter hp)

theorem dropNullRows_ok {t u : Table} {c : String}
    (h : dropNullRows t c = .ok u) :
    ∃ cells, getCol t c = some cells ∧
      u = dropRowsByLabels t ((t.labels.zip cells).filterMap
        (fun p => if p.2.isNull then some p.1 else none)) := by
  rw [dropNullRows, nullLabels] at h
  cases hg : getCol t c with
  | none => rw [hg] at h; exact Except.noConfusion h
  | some cells =>
    rw [hg] at h
    injection h with h
    exact ⟨cells, rfl, h.symm⟩

theorem wf_dropNullRows {t u : Table} {c : String}
    (hwf : Wf t) (h : dropNullRows t c = .ok u) : Wf u := by
  obtain ⟨cells, -, hu⟩ := dropNullRows_ok h
  rw [hu]
  exact wf_dropRowsByLabels hwf _

theorem fillSummary_ok {t u : Table} (h : fillSummary t = .ok u) :
    ∃ cells, getCol t "summary" = some cells ∧
      u = setCol t "summary" (cells.map (fun v => if v.isNull then Val.str "missing" else v)) := by
  rw [fillSummary] at h
  cases hg : getCol t "summary" with
  | none => rw [hg] at h; exact Except.noConfusion h
  | some cells =>
    rw [hg] at h
    injection h with h
    exact ⟨cells, rfl, h.symm⟩

theorem wf_fillSummary {t u : Table} (hwf : Wf t) (h : fillSummary t = .ok u) : Wf u := by
  obtain ⟨cells, hg, hu⟩ := fillSummary_ok h
  rw [hu]
  exact wf_setCol hwf (by rw [List.length_map]; exact getCol_length hwf hg)

theorem applyGetMode_ok {t u : Table} {c : String} (h : applyGetMode t c = .ok u) :
    ∃ cells v, getCol t c = some cells ∧ u = setCol t c (fillna cells v) := by
  rw [applyGetMode, getMode] at h
  cases hg : getCol t c with
  | none => rw [hg] at h; exact Except.noConfusion h
  | some cells =>
    rw [hg] at h
    dsimp only at h
    cases hv : valueCountsAtZero cells with
    | error e =>
      rw [hv] at h
      exact Except.noConfusion h
    | ok v =>
      rw [hv] at h
      dsimp only [Except.map] at h
      injection h with h
      exact ⟨cells, v, rfl, h.symm⟩

theorem wf_applyGetMode {t u : Table} {c : String}
    (hwf : Wf t) (h : applyGetMode t c = .ok u) : Wf u := by
  obtain ⟨cells, v, hg, hu⟩ := applyGetMode_ok h
  rw [hu]
  exact wf_setCol hwf (by rw [fillna, List.length_map]; exact getCol_length hwf hg)

theorem imputeStep_length (l : List (Val × Val)) (i : Nat) :
    (imputeStep l i).length = l.length := by
  rw [imputeStep]
  cases hq : l.get? i with
  | none => rfl
  | some q => exact List.length_set _ _ _

theorem foldl_imputeStep_length :
    ∀ (idxs : List Nat) (l : List (Val × Val)),
      (idxs.foldl imputeStep l).length = l.length := by
  intro idxs
  induction idxs with
  | nil => intro l; rfl
  | cons j rest ih =>
    intro l
    rw [List.foldl_cons, ih, imputeStep_length]

theorem imputeByZip_length (l : List (Val × Val)) :
    (imputeByZip l).length = l.length :=
  foldl_imputeStep_length (nullIdxs l) l

theorem getModeByZip_ok {t u : Table} {c : String} (h : getModeByZip t c = .ok u) :
    ∃ zs ts, getCol t "zipcode" = some zs ∧ getCol t c = some ts ∧
      u = setCol t c ((imputeByZip (zs.zip ts)).map (·.2)) := by
  rw [getModeByZip] at h
  cases hz : getCol t "zipcode" with
  | none => rw [hz] at h; exact Except.noConfusion h
  | some zs =>
    cases hc : getCol t c with
    | none => rw [hz, hc] at h; exact Except.noConfusion h
    | some ts =>
      rw [hz, hc] at h
      injection h with h
      exact ⟨zs, ts, rfl, rfl, h.symm⟩

theorem wf_getModeByZip {t u : Table} {c : String}
    (hwf : Wf t) (h : getModeByZip t c = .ok u) : Wf u := by
  obtain ⟨zs, ts, hz, hc, hu⟩ := getModeByZip_ok h
  rw [hu]
  apply wf_setCol hwf
  rw [List.length_map, imputeByZip_length, List.length_zip,
    getCol_length hwf hz, getCol_length hwf hc]
  exact Nat.min_self _

theorem except_bind_ok {x : Except Err Table} {f : Table → Except Err Table} {u : Table}
    (h : (x >>= f) = .ok u) : ∃ w, x = .ok w ∧ f w = .ok u := by
  cases x with
  | error e => exact Except.noConfusion h
  | ok w => exact ⟨w, rfl, h⟩

theorem handleCategorical_ok_shape {t u : Table} (h : handleCategorical t = .ok u) :
    ∃ t8 t9, dropNullRows t8 "host_neighbourhood" = .ok t9 ∧
      dropNullRows t9 "city" = .ok u := by
  rw [handleCategorical] at h
  obtain ⟨t1, h1, h⟩ := except_bind_ok h
  obtain ⟨t2, h2, h⟩ := except_bind_ok h
  obtain ⟨t3, h3, h⟩ := except_bind_ok h
  obtain ⟨t4, h4, h⟩ := except_bind_ok h
  obtain ⟨t5, h5, h⟩ := except_bind_ok h
  obtain ⟨t6, h6, h⟩ := except_bind_ok h
  obtain ⟨t7, h7, h⟩ := except_bind_ok h
  obtain ⟨t8, h8, h⟩ := except_bind_ok h
  obtain ⟨t9, h9, h⟩ := except_bind_ok h
  obtain ⟨t10, h10, h⟩ := except_bind_ok h
  have ht10 : t10 = u := by
    injection h
  rw [ht10] at h10
  exact ⟨t8, t9, h9, h10⟩

theorem dropNullRows_no_null {t u : Table} {c : String}
    (h : dropNullRows t c = .ok u) :
    ∀ cells, getCol u c = some cells → Val.null ∉ cells := by
  obtain ⟨cells0, hg, hu⟩ := dropNullRows_ok h
  intro cells hc
  rw [hu, getCol_dropRowsByLabels, hg] at hc
  injection hc with hc
  rw [← hc]
  apply no_null_masked_out
  intro pr hpr hnull
  exact List.mem_filterMap.2 ⟨pr, hpr, by rw [hnull]; rfl⟩

theorem dropNullRows_pres_no_null {t u : Table} {c c' : String}
    (h : dropNullRows t c' = .ok u)
    (hno : ∀ cells, getCol t c = some cells → Val.null ∉ cells) :
    ∀ cells, getCol u c = some cells → Val.null ∉ cells := by
  obtain ⟨cells0, hg, hu⟩ := dropNullRows_ok h
  intro cells hc
  rw [hu, getCol_dropRowsByLabels] at hc
  cases hgc : getCol t c with
  | none => rw [hgc] at hc; exact Option.noConfusion hc
  | some cs =>
    rw [hgc] at hc
    injection hc with hc
    rw [← hc]
    intro hmem
    exact hno cs hgc (mem_applyMask _ _ hmem)

/-- C2: (i) `get_mode_by_zip` fallback — a null target cell with no
non-null peer (no other row sharing its zipcode value, or all such rows
also null in the target) is assigned `None` by `search_similar_zip`'s
caught `IndexError` and so remains null; (ii) the final cleanup of
`handle_categorical` drops the rows still null in host_neighbourhood and
then those still null in city, so neither column of a successfully
returned table contains a null. -/
theorem c2_fallback_null_and_cleanup :
    (∀ (t : Table) (c : String) (zs ts : List Val), Wf t →
      getCol t "zipcode" = some zs → getCol t c = some ts → c ≠ "zipcode" →
      ∃ u, getModeByZip t c = Except.ok u ∧
        ∃ ts2, getCol u c = some ts2 ∧
          ∀ i z, zs.get? i = some z → ts.get? i = some Val.null →
            origPeerVals (zs.zip ts) i z = [] → ts2.get? i = some Val.null) ∧
    (∀ t u : Table, handleCategorical t = Except.ok u →
      (∀ cells, getCol u "host_neighbourhood" = some cells → Val.null ∉ cells) ∧
      (∀ cells, getCol u "city" = some cells → Val.null ∉ cells)) := by
  constructor
  · intro t c zs ts hwf hz hc hcz
    refine ⟨setCol t c ((imputeByZip (zs.zip ts)).map (·.2)), ?_, ?_⟩
    · rw [getModeByZip, hz, hc]
    · refine ⟨_, getCol_setCol_self hc _, ?_⟩
      intro i z hzi hti hpe
      have hpair : (zs.zip ts).get? i = some (z, Val.null) :=
        zip_get? zs ts i z Val.null hzi hti
      have hnn_eq : origPeerVals (zs.zip ts) i z = nnVals (zs.zip ts) z := by
        rw [origPeerVals]
        exact nnVals_eraseIdx _ i (z, Val.null) hpair rfl z
      rw [hnn_eq] at hpe
      have hfin := imputeByZip_null hpair rfl hpe
      rw [List.get?_map, hfin]
      rfl
  · intro t u h
    obtain ⟨t8, t9, h9, h10⟩ := handleCategorical_ok_shape h
    constructor
    · exact dropNullRows_pres_no_null h10 (dropNullRows_no_null h9)
    · exact dropNullRows_no_null h10

def tableFull : Table :=
  ⟨[0],
   [("zipcode", [Val.str "98101"]), ("host_location", [Val.str "h"]),
    ("neighbourhood", [Val.str "n"]), ("summary", [Val.str "s"]),
    ("property_type", [Val.str "Apt"]), ("host_response_time", [Val.str "fast"]),
    ("market", [Val.str "Sea"]), ("host_neighbourhood", [Val.str "Cap"]),
    ("city", [Val.str "Seattle"])]⟩

def tableFullCleaned : Table :=
  ⟨[0],
   [("zipcode", [Val.str "98101"]), ("summary", [Val.str "s"]),
    ("property_type", [Val.str "Apt"]), ("host_response_time", [Val.str "fast"]),
    ("market", [Val.str "Sea"]), ("host_neighbourhood", [Val.str "Cap"]),
    ("city", [Val.str "Seattle"])]⟩

def tableC2 : Table :=
  ⟨[0, 1],
   [("zipcode", [Val.str "11111", Val.str "22222"]),
    ("market", [Val.null, Val.str "A"])]⟩

theorem c2_witness :
    (∃ u, getModeByZip tableC2 "market" = Except.ok u ∧
      ∃ ts2, getCol u "market" = some ts2 ∧
        ∀ i z, [Val.str "11111", Val.str "22222"].get? i = some z →
          [Val.null, Val.str "A"].get? i = some Val.null →
          origPeerVals ([Val.str "11111", Val.str "22222"].zip
            [Val.null, Val.str "A"]) i z = [] →
          ts2.get? i = some Val.null) ∧
    Val.null ∉ [Val.str "Cap"] :=
  ⟨c2_fallback_null_and_cleanup.1 tableC2 "market" _ _ (by decide) rfl rfl (by decide),
   (c2_fallback_null_and_cleanup.2 tableFull tableFullCleaned (by rfl)).1
     [Val.str "Cap"] (by rfl)⟩

/-! ## C8 — a second clean_data run always fails -/

theorem colNames_dropRowsByLabels (t : Table) (ls : List Nat) :
    colNames (dropRowsByLabels t ls) = colNames t := by
  rw [colNames, dropRowsByLabels, colNames, List.map_map]
  rfl

theorem colNames_dropNullRows {t u : Table} {c : String}
    (h : dropNullRows t c = .ok u) : colNames u = colNames t := by
  obtain ⟨cells, -, hu⟩ := dropNullRows_ok h
  rw [hu]
  exact colNames_dropRowsByLabels t _

theorem dropColsStrict_not_mem {t u : Table} {names : List String} {n : String}
    (h : dropColsStrict t names = .ok u) (hn : n ∈ names) : n ∉ colNames u := by
  obtain ⟨-, hd⟩ := dropColsStrict_ok h
  rw [colNames, hd]
  intro hmem
  obtain ⟨p, hp, hpn⟩ := List.mem_map.1 hmem
  have hkeep := List.of_mem_filter hp
  rw [hpn] at hkeep
  have hcon : names.contains n = true := List.elem_eq_true_of_mem hn
  rw [hcon] at hkeep
  exact Bool.noConfusion hkeep

theorem not_mem_fillSummary {t u : Table} {n : String}
    (h : fillSummary t = .ok u) (hn : n ∉ colNames t) (hns : n ≠ "summary") :
    n ∉ colNames u := by
  obtain ⟨cells, -, hu⟩ := fillSummary_ok h
  rw [hu]
  exact colNames_setCol_not_mem _ hn hns

theorem not_mem_applyGetMode {t u : Table} {c n : String}
    (h : applyGetMode t c = .ok u) (hn : n ∉ colNames t) (hnc : n ≠ c) :
    n ∉ colNames u := by
  obtain ⟨cells, v, -, hu⟩ := applyGetMode_ok h
  rw [hu]
  exact colNames_setCol_not_mem _ hn hnc

theorem not_mem_getModeByZip {t u : Table} {c n : String}
    (h : getModeByZip t c = .ok u) (hn : n ∉ colNames t) (hnc : n ≠ c) :
    n ∉ colNames u := by
  obtain ⟨zs, ts, -, -, hu⟩ := getModeByZip_ok h
  rw [hu]
  exact colNames_setCol_not_mem _ hn hnc

theorem handleCategorical_not_mem_host_location {t u : Table}
    (h : handleCategorical t = .ok u) : "host_location" ∉ colNames u := by
  rw [handleCategorical] at h
  obtain ⟨t1, h1, h⟩ := except_bind_ok h
  obtain ⟨t2, h2, h⟩ := except_bind_ok h
  obtain ⟨t3, h3, h⟩ := except_bind_ok h
  obtain ⟨t4, h4, h⟩ := except_bind_ok h
  obtain ⟨t5, h5, h⟩ := except_bind_ok h
  obtain ⟨t6, h6, h⟩ := except_bind_ok h
  obtain ⟨t7, h7, h⟩ := except_bind_ok h
  obtain ⟨t8, h8, h⟩ := except_bind_ok h
  obtain ⟨t9, h9, h⟩ := except_bind_ok h
  obtain ⟨t10, h10, h⟩ := except_bind_ok h
  have ht10 : t10 = u := by injection h
  subst ht10
  have n2 : "host_location" ∉ colNames t2 :=
    dropColsStrict_not_mem h2 (List.mem_cons_self _ _)
  have n3 : "host_location" ∉ colNames t3 :=
    not_mem_fillSummary h3 n2 (by decide)
  have n4 : "host_location" ∉ colNames t4 :=
    not_mem_applyGetMode h4 n3 (by decide)
  have n5 : "host_location" ∉ colNames t5 :=
    not_mem_applyGetMode h5 n4 (by decide)
  have n6 : "host_location" ∉ colNames t6 :=
    not_mem_getModeByZip h6 n5 (by decide)
  have n7 : "host_location" ∉ colNames t7 :=
    not_mem_getModeByZip h7 n6 (by decide)
  have n8 : "host_location" ∉ colNames t8 :=
    not_mem_getModeByZip h8 n7 (by decide)
  have n9 : "host_location" ∉ colNames t9 := by
    rw [colNames_dropNullRows h9]
    exact n8
  rw [colNames_dropNullRows h10]
  exact n9

theorem any_eq_false_of_not_mem {t : Table} {n : String} (hn : n ∉ colNames t) :
    t.data.any (fun p => p.1 = n) = false := by
  rw [Bool.eq_false_iff]
  intro hany
  obtain ⟨p, hp, hpn⟩ := List.any_eq_true.1 hany
  exact hn (List.mem_map.2 ⟨p, hp, of_decide_eq_true hpn⟩)

theorem getCol_eq_none_of_not_mem {t : Table} {c : String} (hn : c ∉ colNames t) :
    getCol t c = none := by
  rw [getCol, List.find?_eq_none.2, Option.map_none']
  intro p hp hpc
  exact hn (List.mem_map.2 ⟨p, hp, of_decide_eq_true hpc⟩)

theorem handleCategorical_error_of_no_host_location {t : Table}
    (h : "host_location" ∉ colNames t) :
    ∀ u, handleCategorical t ≠ .ok u := by
  intro u hcat
  rw [handleCategorical] at hcat
  obtain ⟨t1, h1, hcat⟩ := except_bind_ok hcat
  obtain ⟨t2, h2, -⟩ := except_bind_ok hcat
  have h1cols : colNames t1 = colNames t := colNames_dropNullRows h1
  have hnot1 : "host_location" ∉ colNames t1 := by rw [h1cols]; exact h
  rw [dropColsStrict, dropColsL] at h2
  have hall : (["host_location", "neighbourhood"].all
      (fun n => t1.data.any (fun p => p.1 = n))) = false := by
    rw [List.all_cons, any_eq_false_of_not_mem hnot1]
    rfl
  rw [if_neg (by rw [hall]; exact Bool.false_ne_true)] at h2
  exact Except.noConfusion h2

theorem colNames_normalizeMoneyCol {t u : Table} {c : String}
    (h : normalizeMoneyCol t c = .ok u) : colNames u = colNames t := by
  rw [normalizeMoneyCol] at h
  cases hg : getCol t c with
  | none =>
    rw [hg] at h
    injection h with h
    rw [← h]
  | some cells =>
    rw [hg] at h
    dsimp only at h
    cases hm : moneyToNumeric cells with
    | error e => rw [hm] at h; exact Except.noConfusion h
    | ok s1 =>
      rw [hm] at h
      dsimp only at h
      cases hn : toNumeric s1 with
      | error e => rw [hn] at h; exact Except.noConfusion h
      | ok s2 =>
        rw [hn] at h
        injection h with h
        rw [← h]
        exact colNames_setCol_of_any (by
          have := getCol_mem_any hg
          exact this) s2

theorem colNames_normalizePercCol {t u : Table} {c : String}
    (h : normalizePercCol t c = .ok u) : colNames u = colNames t := by
  rw [normalizePercCol] at h
  cases hg : getCol t c with
  | none =>
    rw [hg] at h
    injection h with h
    rw [← h]
  | some cells =>
    rw [hg] at h
    dsimp only at h
    cases hm : percentageToNumeric cells with
    | error e => rw [hm] at h; exact Except.noConfusion h
    | ok s1 =>
      rw [hm] at h
      dsimp only at h
      cases hn : toNumeric s1 with
      | error e => rw [hn] at h; exact Except.noConfusion h
      | ok s2 =>
        rw [hn] at h
        injection h with h
        rw [← h]
        exact colNames_setCol_of_any (getCol_mem_any hg) s2

theorem fold_normStep_error :
    ∀ (fns : List (Table → Except Err Table)) (t : Table) (e : Err),
      fns.foldl normStep (t, some e) = (t, some e) := by
  intro fns
  induction fns with
  | nil => intro t e; rfl
  | cons f rest ih =>
    intro t e
    rw [List.foldl_cons]
    exact ih t e

theorem normStep_ok {f : Table → Except Err Table} {t u : Table}
    (hf : f t = .ok u) : normStep (t, none) f = (u, none) := by
  show (match f t with
    | Except.ok t2 => (t2, (none : Option Err))
    | Except.error e => (t, some e)) = (u, none)
  rw [hf]

theorem normStep_error {f : Table → Except Err Table} {t : Table} {e : Err}
    (hf : f t = .error e) : normStep (t, none) f = (t, some e) := by
  show (match f t with
    | Except.ok t2 => (t2, (none : Option Err))
    | Except.error e => (t, some e)) = (t, some e)
  rw [hf]

theorem fold_normStep_none_cols :
    ∀ (fns : List (Table → Except Err Table)),
      (∀ f ∈ fns, ∀ a b : Table, f a = .ok b → colNames b = colNames a) →
      ∀ t t1, fns.foldl normStep (t, none) = (t1, none) → colNames t1 = colNames t := by
  intro fns
  induction fns with
  | nil =>
    intro _ t t1 h
    injection h with h1 h2
    rw [← h1]
  | cons f rest ih =>
    intro hpres t t1 h
    rw [List.foldl_cons] at h
    cases hf : f t with
    | error e =>
      rw [normStep_error hf, fold_normStep_error] at h
      injection h with h1 h2
      exact absurd h2.symm (by simp)
    | ok u =>
      rw [normStep_ok hf] at h
      rw [ih (fun g hg => hpres g (List.mem_cons_of_mem _ hg)) u t1 h]
      exact hpres f (List.mem_cons_self _ _) t u hf

theorem normalizeAll_none_cols {t t1 : Table}
    (h : normalizeAll t = (t1, none)) : colNames t1 = colNames t := by
  rw [normalizeAll] at h
  refine fold_normStep_none_cols _ ?_ t t1 h
  intro f hf
  rcases List.mem_cons.1 hf with rfl | hf
  · exact fun a b => colNames_normalizeMoneyCol
  rcases List.mem_cons.1 hf with rfl | hf
  · exact fun a b => colNames_normalizeMoneyCol
  rcases List.mem_cons.1 hf with rfl | hf
  · exact fun a b => colNames_normalizePercCol
  rcases List.mem_cons.1 hf with rfl | hf
  · exact fun a b => colNames_normalizePercCol
  simp at hf

theorem not_mem_dropColTolerant {t : Table} {n c : String}
    (hn : n ∉ colNames t) : n ∉ colNames (dropColTolerant t c) := by
  rw [dropColTolerant]
  cases hd : dropColsStrict t [c] with
  | error e => exact hn
  | ok u =>
    obtain ⟨-, hdata⟩ := dropColsStrict_ok hd
    rw [colNames, hdata]
    intro hmem
    obtain ⟨p, hp, hpn⟩ := List.mem_map.1 hmem
    exact hn (List.mem_map.2 ⟨p, List.mem_of_mem_filter hp, hpn⟩)

theorem colNames_dropDuplicates (t : Table) :
    colNames (dropDuplicates t) = colNames t := by
  rw [colNames, dropDuplicates, colNames, List.map_map]
  rfl

theorem not_mem_handleRepetitiveData {t : Table} {n : String}
    (hn : n ∉ colNames t) : n ∉ colNames (handleRepetitiveData t) := by
  rw [handleRepetitiveData, colNames_dropDuplicates]
  have hgen : ∀ (cs : List String) (u : Table), n ∉ colNames u →
      n ∉ colNames (cs.foldl dropColTolerant u) := by
    intro cs
    induction cs with
    | nil => intro u hu; exact hu
    | cons c rest ih =>
      intro u hu
      rw [List.foldl_cons]
      exact ih _ (not_mem_dropColTolerant hu)
  exact hgen repetitiveCols t hn

theorem colNames_handleNumeric (t : Table) :
    colNames (handleNumeric t) = colNames t := by
  rw [handleNumeric]
  have hgen : ∀ (cs : List String) (u : Table),
      colNames (cs.foldl (fun u c =>
        match getCol u c with
        | some cells => setCol u c (fillna cells (medianFill cells))
        | none => u) u) = colNames u := by
    intro cs
    induction cs with
    | nil => intro u; rfl
    | cons c rest ih =>
      intro u
      rw [List.foldl_cons]
      cases hg : getCol u c with
      | none =>
        dsimp only
        exact ih u
      | some cells =>
        dsimp only
        rw [ih _]
        exact colNames_setCol_of_any (getCol_mem_any hg) _
  exact hgen _ t

/-- C8 amended: `clean_data` is never idempotent on its outputs.
`handle_categorical` unconditionally drops the `host_location` (and
`neighbourhood`) columns, so any table `clean_data` returns lacks
`host_location`; a second run reaches the same unconditional drop — or an
earlier exception — and always propagates an error instead of returning a
table, so `clean_data (clean_data T)` is never equal to the successful
`clean_data T`. -/
theorem c8_second_run_fails (T T2 : Table) (h : cleanData T = Except.ok T2) :
    exceptOk (cleanData T2) = false := by
  have hT2 : "host_location" ∉ colNames T2 := by
    rw [cleanData, cleanDataRun] at h
    cases hna : normalizeAll T with
    | mk t1 oe =>
      rw [hna] at h
      cases oe with
      | some e => exact Except.noConfusion h
      | none =>
        dsimp only at h
        cases hcat : handleCategorical (handleNumeric (handleRepetitiveData t1)) with
        | error e =>
          rw [hcat] at h
          exact Except.noConfusion h
        | ok t4 =>
          rw [hcat] at h
          dsimp only at h
          injection h with h
          rw [← h]
          exact handleCategorical_not_mem_host_location hcat
  rw [cleanData, cleanDataRun]
  cases hna2 : normalizeAll T2 with
  | mk t1 oe =>
    cases oe with
    | some e => rfl
    | none =>
      dsimp only
      have ht1 : "host_location" ∉ colNames t1 := by
        rw [normalizeAll_none_cols hna2]
        exact hT2
      have ht3 : "host_location" ∉ colNames (handleNumeric (handleRepetitiveData t1)) := by
        rw [colNames_handleNumeric]
        exact not_mem_handleRepetitiveData ht1
      cases hcat : handleCategorical (handleNumeric (handleRepetitiveData t1)) with
      | ok u => exact absurd hcat (handleCategorical_error_of_no_host_location ht3 u)
      | error e => rfl

theorem c8_witness : exceptOk (cleanData tableFullCleaned) = false :=
  c8_second_run_fails tableFull tableFullCleaned (by rfl)

/-- C8 counterexample: `clean_data` succeeds on `tableFull`, returning
`tableFullCleaned`, but applying `clean_data` again raises a `KeyError`
(the unconditional drop of the now-absent `host_location` column), so
`clean_data (clean_data T)` differs from `clean_data T`. -/
theorem c8_counterexample :
    cleanData tableFull = Except.ok tableFullCleaned ∧
    cleanData tableFullCleaned = Except.error Err.keyError ∧
    Except.error Err.keyError ≠ Except.ok tableFullCleaned := by
  refine ⟨by rfl, by rfl, ?_⟩
  intro h
  exact Except.noConfusion h

/-! ## C9 — errors do not restore the caller's mutated table -/

theorem labels_handleNumeric (t : Table) : (handleNumeric t).labels = t.labels := by
  rw [handleNumeric]
  have hgen : ∀ (cs : List String) (u : Table),
      (cs.foldl (fun u c =>
        match getCol u c with
        | some cells => setCol u c (fillna cells (medianFill cells))
        | none => u) u).labels = u.labels := by
    intro cs
    induction cs with
    | nil => intro u; rfl
    | cons c rest ih =>
      intro u
      rw [List.foldl_cons]
      cases hg : getCol u c with
      | none => dsimp only; exact ih u
      | some cells => dsimp only; rw [ih _]; rfl
  exact hgen _ t

theorem map_eq_map_pointwise {α β : Type} {f g : α → β} :
    ∀ l : List α, l.map f = l.map g → ∀ x ∈ l, f x = g x := by
  intro l
  induction l with
  | nil => intro _ x hx; simp at hx
  | cons a rest ih =>
    intro h x hx
    rw [List.map_cons, List.map_cons] at h
    injection h with h1 h2
    rcases List.mem_cons.1 hx with h0 | h0
    · rw [h0]; exact h1
    · exact ih h2 x h0

theorem dropColTolerant_shape (t : Table) (c : String) :
    ∃ pr : String × List Val → Bool,
      (dropColTolerant t c).data = t.data.filter pr ∧
      (dropColTolerant t c).labels = t.labels := by
  rw [dropColTolerant]
  cases hd : dropColsStrict t [c] with
  | error e =>
    refine ⟨fun _ => true, ?_, rfl⟩
    rw [List.filter_true]
  | ok u =>
    obtain ⟨hl, hdata⟩ := dropColsStrict_ok hd
    exact ⟨_, hdata, hl⟩

theorem foldl_dropColTolerant_shape :
    ∀ (cs : List String) (t : Table),
      ∃ pr : String × List Val → Bool,
        (cs.foldl dropColTolerant t).data = t.data.filter pr ∧
        (cs.foldl dropColTolerant t).labels = t.labels := by
  intro cs
  induction cs with
  | nil =>
    intro t
    refine ⟨fun _ => true, ?_, rfl⟩
    rw [List.filter_true]
    rfl
  | cons c rest ih =>
    intro t
    rw [List.foldl_cons]
    obtain ⟨p1, hd1, hl1⟩ := dropColTolerant_shape t c
    obtain ⟨p2, hd2, hl2⟩ := ih (dropColTolerant t c)
    refine ⟨fun x => p2 x && p1 x, ?_, by rw [hl2, hl1]⟩
    rw [hd2, hd1, List.filter_filter]

theorem applyMask_length_le : ∀ (mask : List Bool) (l : List α),
    (applyMask mask l).length ≤ l.length := by
  intro mask
  induction mask with
  | nil => intro l; simp [applyMask]
  | cons b bs ih =>
    intro l
    cases l with
    | nil => simp [applyMask]
    | cons x xs =>
      rw [applyMask_cons]
      cases b with
      | true =>
        rw [if_pos rfl]
        exact Nat.succ_le_succ (ih xs)
      | false =>
        rw [if_neg Bool.false_ne_true]
        exact Nat.le_succ_of_le (ih xs)

theorem applyMask_length_lt :
    ∀ (j : Nat) (mask : List Bool) (l : List α), mask.get? j = some false →
      j < l.length → (applyMask mask l).length < l.length := by
  intro j
  induction j with
  | zero =>
    intro mask l hm hl
    cases mask with
    | nil => simp at hm
    | cons b bs =>
      simp only [List.get?] at hm
      injection hm with hm
      subst hm
      cases l with
      | nil => simp at hl
      | cons x xs =>
        rw [applyMask_cons, if_neg Bool.false_ne_true]
        exact Nat.lt_succ_of_le (applyMask_length_le bs xs)
  | succ k ih =>
    intro mask l hm hl
    cases mask with
    | nil => simp at hm
    | cons b bs =>
      simp only [List.get?] at hm
      cases l with
      | nil => simp at hl
      | cons x xs =>
        rw [applyMask_cons]
        have hk : k < xs.length := Nat.lt_of_succ_lt_succ hl
        cases b with
        | true =>
          rw [if_pos rfl]
          exact Nat.succ_lt_succ (ih bs xs hm hk)
        | false =>
          rw [if_neg Bool.false_ne_true]
          exact Nat.lt_succ_of_lt (ih bs xs hm hk)

theorem dropDuplicates_labels_lt {t : Table} {i j : Nat}
    (hij : i < j) (hjlen : j < t.labels.length) (hrow : rowAt t i = rowAt t j) :
    (dropDuplicates t).labels.length < t.labels.length := by
  rw [dropDuplicates]
  apply applyMask_length_lt j _ _ _ hjlen
  rw [List.get?_map, List.get?_range hjlen]
  rw [Option.map_some']
  congr 1
  rw [decide_eq_false]
  intro hall
  exact hall i (List.mem_range.2 hij) (by rw [hrow])

theorem rowAt_filter_eq {t u : Table} {pr : String × List Val → Bool} {i j : Nat}
    (hdata : u.data = t.data.filter pr) (hrow : rowAt t i = rowAt t j) :
    rowAt u i = rowAt u j := by
  rw [rowAt, rowAt, hdata]
  apply List.map_congr_left
  intro p hp
  exact map_eq_map_pointwise t.data hrow p (List.mem_of_mem_filter hp)

theorem handleRepetitiveData_labels_lt {t : Table} {i j : Nat}
    (hij : i < j) (hjlen : j < t.labels.length) (hrow : rowAt t i = rowAt t j) :
    (handleRepetitiveData t).labels.length < t.labels.length := by
  rw [handleRepetitiveData]
  obtain ⟨pr, hdata, hlabels⟩ := foldl_dropColTolerant_shape repetitiveCols t
  have hrow2 : rowAt (repetitiveCols.foldl dropColTolerant t) i =
      rowAt (repetitiveCols.foldl dropColTolerant t) j :=
    rowAt_filter_eq hdata hrow
  have := dropDuplicates_labels_lt hij (by rw [hlabels]; exact hjlen) hrow2
  rw [hlabels] at this
  exact this

theorem handleCategorical_error_no_zip {t : Table}
    (hz : "zipcode" ∉ colNames t) :
    handleCategorical t = Except.error Err.keyError := by
  have h1 : dropNullRows t "zipcode" = Except.error Err.keyError := by
    rw [dropNullRows, nullLabels, getCol_eq_none_of_not_mem hz]
    rfl
  rw [handleCategorical, h1]
  rfl

/-- C9 amended: the orchestrator does propagate the first unrecovered
exception instead of returning a table, but it does not leave the caller's
table unchanged: when the normalization columns are absent (so
normalization is a no-op), the table has duplicate rows, and the zipcode
column is missing (so `handle_categorical` raises a `KeyError`), the run
fails *and* the caller-visible state of the argument has lost the
duplicate row removed by the in-place `handle_repetitive_data` — a
partially cleaned table is exposed. -/
theorem c9_error_exposes_partial_state (t : Table)
    (hp : "price" ∉ colNames t) (he : "extra_people" ∉ colNames t)
    (hr : "host_response_rate" ∉ colNames t) (ha : "host_acceptance_rate" ∉ colNames t)
    (hz : "zipcode" ∉ colNames t)
    (i j : Nat) (hij : i < j) (hjlen : j < t.labels.length)
    (hrow : rowAt t i = rowAt t j) :
    ∃ e, (cleanDataRun t).2 = Except.error e ∧ (cleanDataRun t).1 ≠ t := by
  have f1 : normalizeMoneyCol t "price" = .ok t := by
    rw [normalizeMoneyCol, getCol_eq_none_of_not_mem hp]
  have f2 : normalizeMoneyCol t "extra_people" = .ok t := by
    rw [normalizeMoneyCol, getCol_eq_none_of_not_mem he]
  have f3 : normalizePercCol t "host_response_rate" = .ok t := by
    rw [normalizePercCol, getCol_eq_none_of_not_mem hr]
  have f4 : normalizePercCol t "host_acceptance_rate" = .ok t := by
    rw [normalizePercCol, getCol_eq_none_of_not_mem ha]
  have hna : normalizeAll t = (t, none) := by
    rw [normalizeAll, List.foldl_cons,
      normStep_ok (f := fun u => normalizeMoneyCol u "price") f1, List.foldl_cons,
      normStep_ok (f := fun u => normalizeMoneyCol u "extra_people") f2, List.foldl_cons,
      normStep_ok (f := fun u => normalizePercCol u "host_response_rate") f3, List.foldl_cons,
      normStep_ok (f := fun u => normalizePercCol u "host_acceptance_rate") f4]
    rfl
  have hz3 : "zipcode" ∉ colNames (handleNumeric (handleRepetitiveData t)) := by
    rw [colNames_handleNumeric]
    exact not_mem_handleRepetitiveData hz
  have hcat := handleCategorical_error_no_zip hz3
  have hrun : cleanDataRun t =
      (handleNumeric (handleRepetitiveData t), Except.error Err.keyError) := by
    rw [cleanDataRun, hna]
    dsimp only
    rw [hcat]
  refine ⟨Err.keyError, by rw [hrun], ?_⟩
  rw [hrun]
  intro hcontra
  have hlt : (handleNumeric (handleRepetitiveData t)).labels.length < t.labels.length := by
    rw [labels_handleNumeric]
    exact handleRepetitiveData_labels_lt hij hjlen hrow
  rw [show handleNumeric (handleRepetitiveData t) = t from hcontra] at hlt
  exact lt_irrefl _ hlt

def tableC9 : Table := ⟨[0, 1], [("a", [Val.str "x", Val.str "x"])]⟩

theorem c9_witness :
    ∃ e, (cleanDataRun tableC9).2 = Except.error e ∧ (cleanDataRun tableC9).1 ≠ tableC9 :=
  c9_error_exposes_partial_state tableC9 (by decide) (by decide) (by decide) (by decide)
    (by decide) 0 1 (by decide) (by decide) (by decide)

/-- C9 counterexample: on a two-row table whose rows are identical and
which has no zipcode column, `clean_data` fails (a `KeyError` in
`handle_categorical`) *after* the in-place duplicate removal has already
mutated the caller's frame — the caller-visible table has one row left,
not the original two, refuting "the caller-visible input table is
unchanged when any step after the first raises an error". -/
theorem c9_counterexample :
    cleanDataRun tableC9 = (⟨[0], [("a", [Val.str "x"])]⟩, Except.error Err.keyError) ∧
    (⟨[0], [("a", [Val.str "x"])]⟩ : Table) ≠ tableC9 := by
  refine ⟨by rfl, by decide⟩
